import Mathlib

/-!
Verification of the infrastructure monitoring agent's core logic against its
specification.  The definitions below are shallow embeddings of the Python
source: enumerations from `src/models/enums.py`, the duplicate-prevention rule
from `src/services/ticket_lifecycle_manager.py`, the approval workflow from
`src/services/approval_workflow.py` and `src/services/jira_service.py`, the
vessel-query retry loop from `src/services/scheduler.py`, the ping roll-up from
`src/services/influxdb_client.py`, the SLA analyzer from
`src/services/sla_analyzer.py`, and the serialization code from
`src/models/data_models.py`.  Machine floats and `timedelta`/`datetime` values
are modelled as rationals / integers (epoch seconds).
-/

namespace InfraAgent

/-- Component types monitored on each vessel, from `enums.ComponentType`
(a `str`-mixin enum with the given string values). -/
inductive ComponentType where
  | accessPoint
  | dashboard
  | server
deriving DecidableEq, Repr

/-- The string value of each `ComponentType` member. -/
def ComponentType.value : ComponentType → String
  | .accessPoint => "access_point"
  | .dashboard => "dashboard"
  | .server => "server"

/-- `ComponentType(value)` enum construction: fails on unknown strings. -/
def ComponentType.ofValue : String → Except String ComponentType := fun s =>
  if s = "access_point" then .ok .accessPoint
  else if s = "dashboard" then .ok .dashboard
  else if s = "server" then .ok .server
  else .error "ValueError: not a valid ComponentType"

/-- Operational status of a component or device, from `enums.OperationalStatus`. -/
inductive OperationalStatus where
  | up
  | down
  | unknown
deriving DecidableEq, Repr

/-- Issue severity levels, from `enums.IssueSeverity` — a `str`-mixin enum, so
its members compare as their value strings. -/
inductive IssueSeverity where
  | low
  | medium
  | high
  | critical
deriving DecidableEq, Repr

/-- The string value of each `IssueSeverity` member. -/
def IssueSeverity.value : IssueSeverity → String
  | .low => "low"
  | .medium => "medium"
  | .high => "high"
  | .critical => "critical"

/-- The `severity_order` table from `TicketLifecycleManager.check_for_duplicates`. -/
def severityOrder : IssueSeverity → Nat
  | .low => 1
  | .medium => 2
  | .high => 3
  | .critical => 4

/-- Lexicographic `<` on character lists, comparing code points
(Python `str.__lt__` on ASCII strings). -/
def charsLt : List Char → List Char → Bool
  | [], [] => false
  | [], _ :: _ => true
  | _ :: _, [] => false
  | a :: as, b :: bs =>
    if a.val < b.val then true
    else if b.val < a.val then false
    else charsLt as bs

/-- Python string comparison `a < b`. -/
def pyStrLt (a b : String) : Bool := charsLt a.toList b.toList

/-- ASCII lowercasing of one character (`str.lower` on the ASCII error
messages involved). -/
def lowerChar : Char → Char
  | 'A' => 'a' | 'B' => 'b' | 'C' => 'c' | 'D' => 'd' | 'E' => 'e' | 'F' => 'f'
  | 'G' => 'g' | 'H' => 'h' | 'I' => 'i' | 'J' => 'j' | 'K' => 'k' | 'L' => 'l'
  | 'M' => 'm' | 'N' => 'n' | 'O' => 'o' | 'P' => 'p' | 'Q' => 'q' | 'R' => 'r'
  | 'S' => 's' | 'T' => 't' | 'U' => 'u' | 'V' => 'v' | 'W' => 'w' | 'X' => 'x'
  | 'Y' => 'y' | 'Z' => 'z' | c => c

/-- Python `str.lower` on ASCII strings. -/
def pyToLower (s : String) : String := String.mk (s.toList.map lowerChar)

/-- Is the character ASCII whitespace (for Python `str.strip`)? -/
def isSpaceChar (c : Char) : Bool := c == ' ' || c == '\t' || c == '\n' || c == '\r'

/-- Python `str.strip` on ASCII strings. -/
def pyStrip (s : String) : String :=
  String.mk (((s.toList.dropWhile isSpaceChar).reverse.dropWhile isSpaceChar).reverse)

/-- Python `max` over a nonempty collection of `IssueSeverity` members.  Because
`IssueSeverity` mixes in `str`, `max` compares the members as their value
strings, alphabetically — not by the `severity_order` ranking. -/
def pyMaxSeverity (x : IssueSeverity) (rest : List IssueSeverity) : IssueSeverity :=
  rest.foldl (fun acc t => if pyStrLt acc.value t.value then t else acc) x

/-- `TicketLifecycleManager.check_for_duplicates`, given the severities of the
open tickets found for the (vessel, component) inside the duplicate window
(newest first) and the offered severity.  Returns `true` when the new ticket is
considered a duplicate and must be rejected. -/
def checkForDuplicates (maxTicketsPerComponent : Nat) (allowSeverityEscalation : Bool)
    (existing : List IssueSeverity) (offered : IssueSeverity) : Bool :=
  match existing with
  | [] => false
  | e :: rest =>
    if maxTicketsPerComponent ≤ (e :: rest).length then true
    else if allowSeverityEscalation &&
        decide (severityOrder (pyMaxSeverity e rest) < severityOrder offered) then false
    else true

/-- The duplicate-prevention rule as the specification words it: reject iff some
open ticket exists and either the open-ticket count reached the maximum or the
offered severity is not strictly higher than the severity of every existing
open ticket. -/
def specDuplicateReject (maxTicketsPerComponent : Nat)
    (existing : List IssueSeverity) (offered : IssueSeverity) : Bool :=
  !existing.isEmpty &&
    (decide (maxTicketsPerComponent ≤ existing.length) ||
      !(existing.all fun t => decide (severityOrder t < severityOrder offered)))

/-! ### Ping roll-up (`influxdb_client.DevicePingData` / `PingData`) -/

/-- Raw ping data for one device, from `influxdb_client.DevicePingData`.
Timestamps are UTC epoch seconds; the two lists are index-aligned. -/
structure DevicePingData where
  timestamps : List Int
  pingSuccess : List Bool
deriving DecidableEq, Repr

/-- `DevicePingData.get_uptime_percentage`: restrict the samples to the window
`[now - windowHours, now]` and return `successful / total * 100`; `0` when the
device has no samples (in the window). -/
def DevicePingData.getUptimePercentage (d : DevicePingData)
    (windowHours : Int) (now : Int) : ℚ :=
  if d.pingSuccess.isEmpty then 0
  else
    let cutoff := now - windowHours * 3600
    let filtered := ((d.timestamps.zip d.pingSuccess).filter
      (fun p => decide (cutoff ≤ p.1))).map Prod.snd
    if filtered.isEmpty then 0
    else ((filtered.count true : ℚ) / (filtered.length : ℚ)) * 100

/-- `DevicePingData.get_current_status`: UP iff the most recent sample
succeeded; UNKNOWN with no samples. -/
def DevicePingData.getCurrentStatus (d : DevicePingData) : OperationalStatus :=
  if d.pingSuccess.isEmpty || d.timestamps.isEmpty then .unknown
  else if d.pingSuccess.getLastD false then .up
  else .down

/-- Index of the last successful sample: the backwards scan
`for i in range(len(ping_success) - 1, -1, -1)` in `calculate_downtime_aging`. -/
def lastSuccessIdx : List Bool → Option Nat
  | [] => none
  | b :: rest =>
    match lastSuccessIdx rest with
    | some i => some (i + 1)
    | none => if b then some 0 else none

/-- `DevicePingData.calculate_downtime_aging` (result in seconds): time since
the last successful sample; time since the first sample when none succeeded;
`0` when there are no samples. -/
def DevicePingData.calculateDowntimeAging (d : DevicePingData) (now : Int) : Int :=
  if d.timestamps.isEmpty || d.pingSuccess.isEmpty then 0
  else
    match lastSuccessIdx d.pingSuccess with
    | some i => now - d.timestamps.getD i 0
    | none => now - d.timestamps.headD 0

/-- The timestamp of the last successful sample, as the specification words it:
the final element of the chronological list of successful samples. -/
def lastSuccessTime (d : DevicePingData) : Option Int :=
  (((d.timestamps.zip d.pingSuccess).filter (fun p => p.2)).map Prod.fst).getLast?

/-- `PingData.get_uptime_percentage`: the average of the per-device uptime
percentages; `0` when the component has no devices. -/
def pingDataUptimePercentage (devices : List DevicePingData)
    (windowHours : Int) (now : Int) : ℚ :=
  if devices.isEmpty then 0
  else
    let total := devices.foldl
      (fun acc d => acc + d.getUptimePercentage windowHours now) 0
    total / (devices.length : ℚ)

/-! ### SLA analyzer (`sla_analyzer.SLAAnalyzer`) -/

/-- The fields of a `ComponentStatus` consumed by the SLA analyzer.  Durations
are seconds, percentages are rationals. -/
structure ComponentStatusM where
  componentType : ComponentType
  uptimePercentage : ℚ
  currentStatus : OperationalStatus
  downtimeAging : ℚ
deriving DecidableEq, Repr

/-- The `SLAStatus` dataclass from `data_models.py` (`violation_duration`
in seconds, `none` when absent). -/
structure SLAStatus where
  vesselId : String
  componentType : ComponentType
  isCompliant : Bool
  uptimePercentage : ℚ
  violationDuration : Option ℚ
deriving DecidableEq, Repr

/-- `SLAAnalyzer._check_sla_threshold`: uptime meets or exceeds the threshold. -/
def checkSlaThreshold (thresholdPercentage uptimePercentage : ℚ) : Bool :=
  decide (thresholdPercentage ≤ uptimePercentage)

/-- `SLAAnalyzer._calculate_violation_duration` (seconds): downtime aging for a
component that is not UP; otherwise the estimated downtime
`window * (100 - uptime%) / 100` over the monitoring window. -/
def calculateViolationDuration (monitoringWindowHours : ℚ) (cs : ComponentStatusM) : ℚ :=
  if cs.currentStatus ≠ .up then cs.downtimeAging
  else
    let monitoringWindow := monitoringWindowHours * 3600
    let downtimePercentage := 100 - cs.uptimePercentage
    monitoringWindow * (downtimePercentage / 100)

/-- `SLAAnalyzer._analyze_component_sla_compliance`: produce the `SLAStatus`
for one component. -/
def analyzeComponentSlaCompliance (thresholdPercentage monitoringWindowHours : ℚ)
    (vesselId : String) (cs : ComponentStatusM) : SLAStatus :=
  let isCompliant := checkSlaThreshold thresholdPercentage cs.uptimePercentage
  { vesselId := vesselId
    componentType := cs.componentType
    isCompliant := isCompliant
    uptimePercentage := cs.uptimePercentage
    violationDuration :=
      if isCompliant then none
      else some (calculateViolationDuration monitoringWindowHours cs) }

/-! ### Serialization of `SLAStatus` (`data_models.SLAStatus.to_dict/from_dict`) -/

/-- The value found under `'violation_duration'` in the dict built by
`SLAStatus.to_dict`: `asdict` leaves `None` or the raw `timedelta`, and the
truthiness-guarded conversion replaces it by a float of seconds only when the
`timedelta` is non-zero. -/
inductive PyDur where
  | pyNone
  | pyFloat (seconds : ℚ)
  | pyTimedelta (seconds : ℚ)
deriving DecidableEq, Repr

/-- The dictionary shape produced by `SLAStatus.to_dict`. -/
structure SLAStatusDict where
  vesselId : String
  componentType : String
  isCompliant : Bool
  uptimePercentage : ℚ
  violationDuration : PyDur
deriving DecidableEq, Repr

/-- `SLAStatus.to_dict`: `data = asdict(self)`, then
`if self.violation_duration: data['violation_duration'] = ...total_seconds()`.
A `None` or zero `timedelta` is falsy, so only a non-zero duration is converted
to its seconds value. -/
def SLAStatus.toDict (x : SLAStatus) : SLAStatusDict :=
  { vesselId := x.vesselId
    componentType := x.componentType.value
    isCompliant := x.isCompliant
    uptimePercentage := x.uptimePercentage
    violationDuration :=
      match x.violationDuration with
      | none => .pyNone
      | some d => if d = 0 then .pyTimedelta d else .pyFloat d }

/-- `SLAStatus.from_dict` followed by the dataclass `__post_init__` validation.
`timedelta(seconds=...)` accepts a number but raises `TypeError` on a raw
`timedelta` argument. -/
def SLAStatus.fromDict (d : SLAStatusDict) : Except String SLAStatus := do
  let ct ← ComponentType.ofValue d.componentType
  let vd ← match d.violationDuration with
    | .pyNone => pure none
    | .pyFloat s => pure (some s)
    | .pyTimedelta _ =>
        Except.error "TypeError: unsupported type for timedelta seconds component"
  if pyStrip d.vesselId = "" then
    Except.error "Vessel ID cannot be empty"
  else if ¬ (0 ≤ d.uptimePercentage ∧ d.uptimePercentage ≤ 100) then
    Except.error "Uptime percentage must be between 0 and 100"
  else if (match vd with
      | some s => decide (s ≠ 0) && decide (s < 0)
      | none => false) then
    Except.error "Violation duration cannot be negative"
  else
    pure { vesselId := d.vesselId, componentType := ct, isCompliant := d.isCompliant,
           uptimePercentage := d.uptimePercentage, violationDuration := vd }

/-! ### Approval workflow (`approval_workflow.ApprovalWorkflow`,
`jira_service.JIRAService.submit_approval_response`) -/

/-- Association-list lookup, modelling Python `dict` access on the small
request maps. -/
def alookup {α β : Type} [DecidableEq α] (k : α) : List (α × β) → Option β
  | [] => none
  | (k', v) :: rest => if k' = k then some v else alookup k rest

/-- Approval status, from `jira_service.ApprovalStatus`. -/
inductive ApprovalStatus where
  | pending
  | approved
  | rejected
  | timeout
deriving DecidableEq, Repr

/-- Whether a status is terminal (anything but PENDING). -/
def ApprovalStatus.isTerminal : ApprovalStatus → Bool
  | .pending => false
  | _ => true

/-- The fields of `jira_service.ApprovalRequest` tracked here.  Times are
abstract ticks. -/
structure ApprovalReq where
  status : ApprovalStatus
  requestedAt : Nat
  respondedAt : Option Nat
deriving DecidableEq, Repr

/-- The in-memory state of `ApprovalWorkflow`: the `_pending_requests` and
`_completed_requests` dictionaries. -/
structure WfState where
  pending : List (String × ApprovalReq)
  completed : List (String × ApprovalReq)
deriving DecidableEq, Repr

/-- `ApprovalWorkflow.submit_approval_request`: rejects when the pending map is
full, otherwise stores a new PENDING request under the (fresh uuid4) id. -/
def submitApprovalRequest (maxPending : Nat) (s : WfState) (id : String) (now : Nat) :
    Except String WfState :=
  if maxPending ≤ s.pending.length then .error "Too many pending requests"
  else .ok { s with pending := (id, ⟨.pending, now, none⟩) :: s.pending }

/-- `ApprovalWorkflow.submit_approval_decision`: raises unless the id is in the
pending map; otherwise records the APPROVED/REJECTED status and moves the
request to the completed map. -/
def submitApprovalDecision (s : WfState) (id : String) (approved : Bool) (now : Nat) :
    Except String (WfState × ApprovalStatus) :=
  match alookup id s.pending with
  | none => .error "Request not found or already processed"
  | some req =>
    let newStatus : ApprovalStatus := if approved then .approved else .rejected
    let req' : ApprovalReq := { req with status := newStatus, respondedAt := some now }
    .ok ({ pending := s.pending.filter (fun p => decide (p.1 ≠ id)),
           completed := (id, req') :: s.completed }, newStatus)

/-- `ApprovalWorkflow.check_timeouts`: every pending request whose deadline has
strictly passed is marked TIMEOUT and moved to the completed map. -/
def checkTimeouts (timeoutMinutes : Nat) (now : Nat) (s : WfState) : WfState :=
  { pending := s.pending.filter
      (fun p => !(decide (p.2.requestedAt + timeoutMinutes < now))),
    completed :=
      (s.pending.filter (fun p => decide (p.2.requestedAt + timeoutMinutes < now))).map
        (fun p => (p.1, { p.2 with status := .timeout, respondedAt := some now }))
      ++ s.completed }

/-- `JIRAService.submit_approval_response`: raises when the id is unknown or
the request is no longer PENDING; otherwise records the decision in place. -/
def submitApprovalResponse (requests : List (String × ApprovalReq)) (id : String)
    (approved : Bool) (now : Nat) : Except String (List (String × ApprovalReq)) :=
  match alookup id requests with
  | none => .error "Approval request not found"
  | some req =>
    if req.status ≠ .pending then .error "Approval request already responded to"
    else
      let newStatus : ApprovalStatus := if approved then .approved else .rejected
      let req' : ApprovalReq := { req with status := newStatus, respondedAt := some now }
      .ok (requests.map fun p => if p.1 = id then (p.1, req') else p)

/-- The operations a client can perform on the workflow state. -/
inductive WfOp where
  | submit (id : String) (now : Nat)
  | respond (id : String) (approved : Bool) (now : Nat)
  | timeouts (now : Nat)

/-- One workflow operation; a raised error leaves the state unchanged. -/
def wfStep (maxPending timeoutMinutes : Nat) (s : WfState) : WfOp → WfState
  | .submit id now =>
    match submitApprovalRequest maxPending s id now with
    | .ok s' => s'
    | .error _ => s
  | .respond id approved now =>
    match submitApprovalDecision s id approved now with
    | .ok (s', _) => s'
    | .error _ => s
  | .timeouts now => checkTimeouts timeoutMinutes now s

/-- The workflow-state invariant: pending requests are PENDING, completed
requests are terminal, no id is both pending and completed, and pending ids
are distinct. -/
def WfInv (s : WfState) : Prop :=
  (∀ p ∈ s.pending, p.2.status = .pending) ∧
  (∀ p ∈ s.completed, p.2.status.isTerminal = true) ∧
  (∀ p ∈ s.pending, alookup p.1 s.completed = none) ∧
  (s.pending.map Prod.fst).Nodup

instance (s : WfState) : Decidable (WfInv s) := by
  unfold WfInv; infer_instance

/-- Freshness of the id used by an operation: `uuid4` never collides with an
existing request. -/
def WfOp.fresh (s : WfState) : WfOp → Prop
  | .submit id _ => alookup id s.pending = none ∧ alookup id s.completed = none
  | _ => True

instance (s : WfState) (op : WfOp) : Decidable (op.fresh s) := by
  cases op <;> (unfold WfOp.fresh; infer_instance)

/-! ### SLA violation lifecycle (`sla_analyzer._track_sla_violation_lifecycle`) -/

/-- A row of `sla_violation_history` as far as the invariant is concerned. -/
structure ViolationRecord where
  vid : Nat
  vesselId : String
  componentType : ComponentType
  resolved : Bool
deriving DecidableEq, Repr

/-- The state of the analyzer: the durable store rows, the in-memory
`_active_violations` cache, and the next autoincrement id. -/
structure AnalyzerState where
  store : List ViolationRecord
  cache : List ((String × ComponentType) × Nat)
  nextId : Nat
deriving DecidableEq, Repr

/-- `DatabaseService.resolve_sla_violation`: mark the record with the given id
resolved. -/
def resolveViolation (store : List ViolationRecord) (i : Nat) : List ViolationRecord :=
  store.map fun r => if r.vid = i then { r with resolved := true } else r

/-- `SLAAnalyzer._track_sla_violation_lifecycle` for one observation of one
(vessel, component): a non-compliant observation with no cached open violation
inserts a new unresolved record and caches its id; a compliant observation with
a cached id resolves that record and evicts the cache entry. -/
def trackViolationLifecycle (s : AnalyzerState) (vesselId : String)
    (componentType : ComponentType) (isCompliant : Bool) : AnalyzerState :=
  let key := (vesselId, componentType)
  if ¬ isCompliant then
    match alookup key s.cache with
    | some _ => s
    | none =>
      { store := s.store ++ [⟨s.nextId, vesselId, componentType, false⟩],
        cache := (key, s.nextId) :: s.cache,
        nextId := s.nextId + 1 }
  else
    match alookup key s.cache with
    | none => s
    | some i =>
      { store := resolveViolation s.store i,
        cache := s.cache.filter (fun p => decide (p.1 ≠ key)),
        nextId := s.nextId }

/-- `SLAAnalyzer.__init__`: the `_active_violations` cache starts EMPTY; it is
not reconstructed from the open records already in the store. -/
def initAnalyzer (store : List ViolationRecord) (nextId : Nat) : AnalyzerState :=
  { store := store, cache := [], nextId := nextId }

/-- Feed a sequence of per-component compliance observations
`(vessel, component, is_compliant)` through the lifecycle tracker. -/
def runObservations (s : AnalyzerState) :
    List (String × ComponentType × Bool) → AnalyzerState
  | [] => s
  | (v, ct, compliant) :: rest =>
    runObservations (trackViolationLifecycle s v ct compliant) rest

/-- The unresolved records of the store for one (vessel, component) pair. -/
def unresolvedFor (store : List ViolationRecord) (key : String × ComponentType) :
    List ViolationRecord :=
  store.filter fun r =>
    decide (r.vesselId = key.1 ∧ r.componentType = key.2 ∧ r.resolved = false)

/-! ### Scheduler vessel-query retry loop
(`scheduler.MonitoringScheduler._execute_vessel_queries_with_retry`) -/

/-- One `VesselQueryResult` row, as far as the claims are concerned. -/
structure VesselQueryRec where
  vessel : String
  attempt : Nat
  success : Bool
deriving DecidableEq, Repr

/-- The outcome of querying one vessel on one attempt, after the scheduler has
classified the raised error with `_should_retry_vessel_query`. -/
inductive QueryOutcome where
  | success
  | failure (shouldRetry : Bool)
deriving DecidableEq, Repr

/-- The accumulated run data: the `VesselQueryResult` sink, the
`successful_vessels` keys (in insertion order), and `total_retry_attempts`. -/
structure RetryState where
  records : List VesselQueryRec
  successfulVessels : List String
  retryAttempts : Nat
deriving DecidableEq, Repr

/-- One pass of the inner `for vessel_id in failed_vessels` loop at a given
attempt number.  Returns the `VesselQueryResult`s logged during the pass, the
vessels that succeeded, and the vessels carried into the next attempt
(`current_attempt_failed`: retryable failures while `attempt < max`). -/
def attemptPass (outcome : String → Nat → QueryOutcome) (maxAttempts attempt : Nat) :
    List String → List VesselQueryRec × List String × List String
  | [] => ([], [], [])
  | v :: rest =>
    let res := attemptPass outcome maxAttempts attempt rest
    match outcome v attempt with
    | .success => (⟨v, attempt, true⟩ :: res.1, v :: res.2.1, res.2.2)
    | .failure shouldRetry =>
      (⟨v, attempt, false⟩ :: res.1, res.2.1,
        if shouldRetry && decide (attempt < maxAttempts) then v :: res.2.2 else res.2.2)

/-- The outer `for attempt in range(1, max_retry_attempts + 1)` loop.  The
retry total is increased by the size of the carried set whenever another
attempt follows (`attempt < max` and the carried set is nonempty). -/
def execRetryAux (outcome : String → Nat → QueryOutcome) (maxAttempts : Nat) :
    Nat → Nat → List String → RetryState → RetryState × List String
  | 0, _, failed, s => (s, failed)
  | fuel + 1, attempt, failed, s =>
    if failed.isEmpty then (s, failed)
    else
      let pass := attemptPass outcome maxAttempts attempt failed
      let carried := pass.2.2
      let retryAttempts' :=
        if decide (attempt < maxAttempts) && !carried.isEmpty
        then s.retryAttempts + carried.length
        else s.retryAttempts
      execRetryAux outcome maxAttempts fuel (attempt + 1) carried
        ⟨s.records ++ pass.1, s.successfulVessels ++ pass.2.1, retryAttempts'⟩

/-- `MonitoringScheduler._execute_vessel_queries_with_retry`: run the retry
loop over all vessels, starting at attempt 1. -/
def executeVesselQueriesWithRetry (outcome : String → Nat → QueryOutcome)
    (maxAttempts : Nat) (vessels : List String) : RetryState × List String :=
  execRetryAux outcome maxAttempts maxAttempts 1 vessels ⟨[], [], 0⟩

/-- The sequence of `VesselQueryResult`s a single vessel receives, read off its
outcomes alone: one failure row per retried attempt, ending with a success row
or a final failure row. -/
def vesselTrace (outcome : String → Nat → QueryOutcome) (maxAttempts : Nat) (v : String) :
    Nat → Nat → List VesselQueryRec
  | 0, _ => []
  | fuel + 1, attempt =>
    match outcome v attempt with
    | .success => [⟨v, attempt, true⟩]
    | .failure shouldRetry =>
      ⟨v, attempt, false⟩ ::
        (if shouldRetry && decide (attempt < maxAttempts)
         then vesselTrace outcome maxAttempts v fuel (attempt + 1)
         else [])

/-- Whether the vessel's trace ends in a success. -/
def traceSucceeds (outcome : String → Nat → QueryOutcome) (maxAttempts : Nat) (v : String) :
    Nat → Nat → Bool
  | 0, _ => false
  | fuel + 1, attempt =>
    match outcome v attempt with
    | .success => true
    | .failure shouldRetry =>
      if shouldRetry && decide (attempt < maxAttempts)
      then traceSucceeds outcome maxAttempts v fuel (attempt + 1)
      else false

/-- The working set entering attempt `j + 1` when the loop starts at attempt
`attempt` with working set `failed`: `wsFrom … j` is the set carried through
`j` passes. -/
def wsFrom (outcome : String → Nat → QueryOutcome) (maxAttempts attempt : Nat)
    (failed : List String) : Nat → List String
  | 0 => failed
  | j + 1 => (attemptPass outcome maxAttempts (attempt + j)
      (wsFrom outcome maxAttempts attempt failed j)).2.2

/-! ### Probe error classification (`scheduler._should_retry_vessel_query`,
`influxdb_client._retry_operation`) -/

/-- Does `hay` start with `needle` (character lists)? -/
def startsWithChars : List Char → List Char → Bool
  | _, [] => true
  | [], _ :: _ => false
  | a :: as, b :: bs => a == b && startsWithChars as bs

/-- Does `hay` contain `needle` as a contiguous run (Python `needle in hay`)? -/
def containsChars : List Char → List Char → Bool
  | [], needle => needle.isEmpty
  | a :: as, needle => startsWithChars (a :: as) needle || containsChars as needle

/-- Python substring membership `needle in hay`. -/
def strContains (hay needle : String) : Bool := containsChars hay.toList needle.toList


/-- The keyword lists of `_should_retry_vessel_query`. -/
def retryableErrorKeywords : List String :=
  ["timeout", "connection", "network", "unreachable", "refused", "reset",
   "temporary", "unavailable"]

/-- Database-related retryable keywords. -/
def retryableDbErrorKeywords : List String :=
  ["database is locked", "database connection", "connection pool",
   "too many connections"]

/-- Keywords marking authentication/configuration errors as non-retryable. -/
def nonRetryableErrorKeywords : List String :=
  ["authentication", "unauthorized", "forbidden", "invalid credentials",
   "permission denied", "configuration error", "invalid configuration",
   "ssl certificate", "certificate verify failed"]

/-- `MonitoringScheduler._should_retry_vessel_query`: classify by substring
matching on the lowercased error message, then by the exception type name;
unknown errors default to retry. -/
def shouldRetryVesselQuery (errorMsg : String) (errorType : String) : Bool :=
  let errorStr := pyToLower errorMsg
  if nonRetryableErrorKeywords.any (fun kw => strContains errorStr kw) then false
  else if retryableErrorKeywords.any (fun kw => strContains errorStr kw) then true
  else if retryableDbErrorKeywords.any (fun kw => strContains errorStr kw) then true
  else if ["TimeoutError", "ConnectionError", "OSError", "socket.error"].any
      (fun t => t == errorType) then true
  else true

/-- The errors an InfluxDB client operation can raise: `_execute_query_http`
raises `requests.RequestException` for ANY non-200 HTTP status (4xx included);
anything else is a non-HTTP error. -/
inductive ClientError where
  | requestException (msg : String)
  | otherError (msg : String)
deriving DecidableEq, Repr

/-- `InfluxDBClientWrapper._retry_operation`, with `fuel` remaining retries:
a `requests.RequestException` is retried until the attempts are exhausted,
any other error surfaces immediately.  Returns the number of calls made and
the final result. -/
def retryOperationAux {α : Type} (op : Nat → Except ClientError α) :
    Nat → Nat → Nat × Except ClientError α
  | attempt, 0 => (attempt + 1, op attempt)
  | attempt, fuel + 1 =>
    match op attempt with
    | .ok a => (attempt + 1, .ok a)
    | .error (.requestException _) => retryOperationAux op (attempt + 1) fuel
    | .error e => (attempt + 1, .error e)

/-- `_retry_operation` with `maxRetries` retries (so up to `maxRetries + 1`
calls of the operation). -/
def retryOperation {α : Type} (op : Nat → Except ClientError α) (maxRetries : Nat) :
    Nat × Except ClientError α :=
  retryOperationAux op 0 maxRetries

/-! ### Auxiliary definitions used by the theorems -/

/-- The retry-exhaustion scenario of the specification: vessel B fails with a
retryable TIMEOUT on every attempt, vessels A and C succeed on attempt 1. -/
def scenarioOutcome : String → Nat → QueryOutcome :=
  fun v _ => if v = "B" then .failure true else .success

/-- The device's samples within the monitoring window, as the specification
words them (success flags of samples with timestamp at or after the cutoff). -/
def samplesInWindow (d : DevicePingData) (windowHours now : Int) : List Bool :=
  ((d.timestamps.zip d.pingSuccess).filter
    (fun p => decide (now - windowHours * 3600 ≤ p.1))).map Prod.snd

/-- The analyzer invariant tying the `_active_violations` cache to the store:
ids are below the autoincrement counter and distinct, a cached (vessel,
component) key points at its unique unresolved record, and an uncached key has
no unresolved record at all. -/
def AnalyzerInv (s : AnalyzerState) : Prop :=
  (∀ r ∈ s.store, r.vid < s.nextId) ∧
  (s.store.map ViolationRecord.vid).Nodup ∧
  (∀ key i, alookup key s.cache = some i →
    ∃ r, unresolvedFor s.store key = [r] ∧ r.vid = i) ∧
  (∀ key, alookup key s.cache = none → unresolvedFor s.store key = [])

/-! ## Theorems -/

/-- C1: within the duplicate window, with open tickets of severities
[CRITICAL, LOW] (newest first) and an offered severity HIGH,
`check_for_duplicates` allows the new ticket even though HIGH is not strictly
higher than CRITICAL: Python's `max` over the `str`-mixin `IssueSeverity`
compares the value strings alphabetically (`"low" > "critical"`), so the
escalation test compares the offered severity against LOW instead of CRITICAL.
The rule as specified (and as the adjacent `severity_order` table intends)
rejects this ticket. -/
theorem checkForDuplicates_string_max_divergence :
    checkForDuplicates 3 true [.critical, .low] .high = false ∧
    specDuplicateReject 3 [.critical, .low] .high = true := by
  decide

/-- C6 (counterexample): a device whose single sample at time 10 succeeded is
currently UP, yet `calculate_downtime_aging` at time 110 returns 100 seconds,
not 0 — the function measures time since the last successful sample and has no
"0 when UP" branch. -/
theorem downtimeAging_up_counterexample :
    DevicePingData.getCurrentStatus ⟨[10], [true]⟩ = .up ∧
    DevicePingData.calculateDowntimeAging ⟨[10], [true]⟩ 110 = 100 ∧
    DevicePingData.calculateDowntimeAging ⟨[10], [true]⟩ 110 ≠ 0 := by
  decide

/-- C8 (counterexample): the violation cache is NOT rebuilt from the store at
startup (`__init__` sets `_active_violations = {}`), so an analyzer restarted
over a store holding one open violation for ("v1", access_point) opens a second
one on the next non-compliant observation: two unresolved records for the same
(vessel, component) pair. -/
theorem violationCache_not_reconstructed :
    (unresolvedFor (runObservations
        (initAnalyzer [⟨1, "v1", .accessPoint, false⟩] 2)
        [("v1", .accessPoint, false)]).store ("v1", .accessPoint)).length = 2 := by
  decide

/-- C5 (counterexample): an HTTP 401 error does not surface without retry.
The error message `"Query failed with status 401: error"` raised by
`_execute_query_http` contains no recognised keyword, so
`_should_retry_vessel_query` falls through to its default and returns `true`;
the probe client's `_retry_operation` retries any `requests.RequestException`
(4xx included) and calls the operation 4 times with `max_retries = 3`; and the
scheduler loop logs 3 `VesselQueryResult`s for the vessel, not 1. -/
theorem http401_retried_counterexample :
    shouldRetryVesselQuery "Query failed with status 401: error" "RequestException" = true ∧
    (retryOperation (fun _ => Except.error (ClientError.requestException
        "Query failed with status 401: error") : Nat → Except ClientError Unit) 3).1 = 4 ∧
    ((executeVesselQueriesWithRetry (fun _ _ => .failure (shouldRetryVesselQuery
        "Query failed with status 401: error" "RequestException")) 3 ["X"]).1.records.filter
      (fun r => decide (r.vessel = "X"))).length = 3 := by
  decide

/-- C10: the serialization round-trip of `SLAStatus` fails exactly at a zero
optional duration: `to_dict`'s truthiness test `if self.violation_duration:`
skips the seconds conversion for `timedelta(0)`, leaving the raw `timedelta` in
the dict, and `from_dict` then crashes in `timedelta(seconds=timedelta(0))`;
with a non-zero duration the round-trip returns the original value. -/
theorem slaStatus_roundtrip_zero_duration_fails :
    SLAStatus.fromDict (SLAStatus.toDict ⟨"v1", .accessPoint, false, 90, some 0⟩) =
      Except.error "TypeError: unsupported type for timedelta seconds component" ∧
    SLAStatus.fromDict (SLAStatus.toDict ⟨"v1", .accessPoint, false, 90, some 5⟩) =
      Except.ok ⟨"v1", .accessPoint, false, 90, some 5⟩ := by
  exact ⟨rfl, rfl⟩

/-- C7: the SLA verdict: a component is compliant iff its uptime percentage is
at least the threshold (equality is compliant), and a non-compliant component's
violation duration is its downtime aging when it is not UP, and the estimated
downtime `window * (100 - uptime%) / 100` when it is UP but below threshold. -/
theorem slaVerdict_spec (thresholdPercentage monitoringWindowHours : ℚ)
    (vesselId : String) (cs : ComponentStatusM) :
    ((analyzeComponentSlaCompliance thresholdPercentage monitoringWindowHours
        vesselId cs).isCompliant = true ↔ thresholdPercentage ≤ cs.uptimePercentage) ∧
    ((analyzeComponentSlaCompliance thresholdPercentage monitoringWindowHours
        vesselId cs).isCompliant = false →
      (analyzeComponentSlaCompliance thresholdPercentage monitoringWindowHours
        vesselId cs).violationDuration =
        some (if cs.currentStatus ≠ .up then cs.downtimeAging
              else monitoringWindowHours * 3600 * ((100 - cs.uptimePercentage) / 100))) := by
  constructor
  · simp [analyzeComponentSlaCompliance, checkSlaThreshold]
  · intro h
    simp only [analyzeComponentSlaCompliance, checkSlaThreshold] at h ⊢
    simp only [h, if_false, Bool.false_eq_true]
    rfl

/-- C7 (witness): a component that is UP with 90% uptime against a 95%
threshold is non-compliant with estimated violation duration
`24h * 10% = 8640 s`. -/
theorem slaVerdict_spec_witness :
    (analyzeComponentSlaCompliance 95 24 "v1" ⟨.accessPoint, 90, .up, 0⟩).isCompliant
      = false ∧
    (analyzeComponentSlaCompliance 95 24 "v1" ⟨.accessPoint, 90, .up, 0⟩).violationDuration
      = some (24 * 3600 * ((100 - 90) / 100)) := by
  have hc : (analyzeComponentSlaCompliance 95 24 "v1"
      ⟨.accessPoint, 90, .up, 0⟩).isCompliant = false := by decide
  have h := (slaVerdict_spec 95 24 "v1" ⟨.accessPoint, 90, .up, 0⟩).2 hc
  exact ⟨hc, by simpa using h⟩

/-- `get_uptime_percentage` written through the window restriction. -/
theorem getUptimePercentage_eq (d : DevicePingData) (windowHours now : Int) :
    d.getUptimePercentage windowHours now =
      if (samplesInWindow d windowHours now).isEmpty then 0
      else ((samplesInWindow d windowHours now).count true : ℚ) /
        ((samplesInWindow d windowHours now).length : ℚ) * 100 := by
  unfold DevicePingData.getUptimePercentage samplesInWindow
  by_cases he : d.pingSuccess.isEmpty
  · have hnil : d.pingSuccess = [] := by
      cases hps : d.pingSuccess with
      | nil => rfl
      | cons a l => rw [hps] at he; simp at he
    simp [hnil, List.zip_nil_right]
  · simp only [he, Bool.false_eq_true, if_false]

/-- Folding `acc + f x` over a list sums the mapped list. -/
theorem foldl_add_map {α : Type} (f : α → ℚ) (l : List α) (a : ℚ) :
    l.foldl (fun acc x => acc + f x) a = a + (l.map f).sum := by
  induction l generalizing a with
  | nil => simp
  | cons x t ih => simp [ih, add_assoc]

/-- C9: per-device uptime over the monitoring window is
`successful / total * 100` over the samples inside the window and `0` with no
samples in the window; component uptime is the arithmetic mean of the device
uptimes whenever the component has at least one device. -/
theorem uptime_mean_spec (d : DevicePingData) (windowHours now : Int)
    (devices : List DevicePingData) :
    (samplesInWindow d windowHours now = [] →
      d.getUptimePercentage windowHours now = 0) ∧
    (samplesInWindow d windowHours now ≠ [] →
      d.getUptimePercentage windowHours now =
        ((samplesInWindow d windowHours now).count true : ℚ) /
          ((samplesInWindow d windowHours now).length : ℚ) * 100) ∧
    (devices ≠ [] →
      pingDataUptimePercentage devices windowHours now =
        (devices.map fun x => x.getUptimePercentage windowHours now).sum /
          (devices.length : ℚ)) := by
  refine ⟨?_, ?_, ?_⟩
  · intro h
    rw [getUptimePercentage_eq, h]
    simp
  · intro h
    rw [getUptimePercentage_eq]
    have : (samplesInWindow d windowHours now).isEmpty = false := by
      cases hs : samplesInWindow d windowHours now with
      | nil => exact absurd hs h
      | cons a l => simp
    simp [this]
  · intro h
    have : devices.isEmpty = false := by
      cases hs : devices with
      | nil => exact absurd hs h
      | cons a l => simp
    unfold pingDataUptimePercentage
    simp only [this, Bool.false_eq_true, if_false]
    rw [foldl_add_map]
    simp

/-- C9 (witness): a device with three samples in the window, two successful,
has uptime `200/3 %`; a component made of that device and a fully-up device
has the mean uptime `(200/3 + 100) / 2`. -/
theorem uptime_mean_spec_witness :
    DevicePingData.getUptimePercentage ⟨[10, 20, 30], [true, false, true]⟩ 24 100 =
      (2 : ℚ) / 3 * 100 ∧
    pingDataUptimePercentage
      [⟨[10, 20, 30], [true, false, true]⟩, ⟨[10], [true]⟩] 24 100 =
      ((2 : ℚ) / 3 * 100 + 100) / 2 := by
  have h1 := (uptime_mean_spec ⟨[10, 20, 30], [true, false, true]⟩ 24 100 []).2.1
    (by decide)
  have h2 := (uptime_mean_spec ⟨[10], [true]⟩ 24 100
    [⟨[10, 20, 30], [true, false, true]⟩, ⟨[10], [true]⟩]).2.2 (by decide)
  constructor
  · rw [h1]; norm_num [samplesInWindow]
  · rw [h2]
    have h3 := (uptime_mean_spec ⟨[10], [true]⟩ 24 100 []).2.1 (by decide)
    rw [List.map_cons, List.map_cons, List.map_nil, h1, h3]
    norm_num [samplesInWindow]

/-- A list that is not `[]` has `isEmpty = false`. -/
theorem isEmpty_false_of_ne_nil {α : Type} {l : List α} (h : l ≠ []) :
    l.isEmpty = false := by
  cases l with
  | nil => exact absurd rfl h
  | cons a t => rfl

/-- The backwards index scan of `calculate_downtime_aging` agrees with the
chronological list of successful samples: when it finds index `i`, the last
successful sample is the one at index `i`; when it finds nothing, no sample
succeeded. -/
theorem lastSuccess_zip_spec :
    ∀ (bs : List Bool) (ts : List Int), ts.length = bs.length →
    (∀ i, lastSuccessIdx bs = some i →
      (((ts.zip bs).filter (fun p => p.2)).map Prod.fst).getLast? =
        some (ts.getD i 0)) ∧
    (lastSuccessIdx bs = none → (ts.zip bs).filter (fun p => p.2) = []) := by
  intro bs
  induction bs with
  | nil =>
    intro ts _
    constructor
    · intro i h
      simp [lastSuccessIdx] at h
    · intro _
      simp [List.zip_nil_right]
  | cons b bs ih =>
    intro ts hlen
    cases ts with
    | nil => simp at hlen
    | cons t ts' =>
      have hlen' : ts'.length = bs.length := by simpa using hlen
      have ih' := ih ts' hlen'
      constructor
      · intro i h
        simp only [lastSuccessIdx] at h
        cases hrec : lastSuccessIdx bs with
        | some j =>
          rw [hrec] at h
          simp only [Option.some_inj] at h
          subst h
          have hIH := ih'.1 j hrec
          cases b with
          | false =>
            simpa [List.zip_cons_cons] using hIH
          | true =>
            cases hm : ((ts'.zip bs).filter (fun p => p.2)).map Prod.fst with
            | nil => rw [hm] at hIH; simp at hIH
            | cons c cs =>
              rw [hm] at hIH
              simp only [List.zip_cons_cons, List.filter_cons_of_pos, List.map_cons]
              rw [hm, List.getLast?_cons_cons, hIH]
              simp
        | none =>
          rw [hrec] at h
          cases b with
          | true =>
            simp only [if_true, Option.some_inj] at h
            subst h
            have hf := ih'.2 hrec
            simp [List.zip_cons_cons, hf]
          | false => simp at h
      · intro h
        simp only [lastSuccessIdx] at h
        cases hrec : lastSuccessIdx bs with
        | some j => rw [hrec] at h; simp at h
        | none =>
          rw [hrec] at h
          cases b with
          | true => simp at h
          | false =>
            have hf := ih'.2 hrec
            simp [List.zip_cons_cons, hf]

/-- C6 (amended): `downtime_aging` is the time since the LAST SUCCESSFUL
sample whenever some sample succeeded — including when the device is currently
UP (there is no "0 when UP" branch); it is `now - first_sample_time` when
samples exist but none succeeded; and it is `0` with no samples. -/
theorem calculateDowntimeAging_spec (d : DevicePingData) (now : Int)
    (hlen : d.timestamps.length = d.pingSuccess.length) :
    (d.timestamps = [] → d.calculateDowntimeAging now = 0) ∧
    (∀ t, lastSuccessTime d = some t → d.calculateDowntimeAging now = now - t) ∧
    (lastSuccessTime d = none → d.timestamps ≠ [] →
      d.calculateDowntimeAging now = now - d.timestamps.headD 0) := by
  have hspec := lastSuccess_zip_spec d.pingSuccess d.timestamps hlen
  refine ⟨?_, ?_, ?_⟩
  · intro h
    unfold DevicePingData.calculateDowntimeAging
    simp [h]
  · intro t ht
    unfold lastSuccessTime at ht
    cases hrec : lastSuccessIdx d.pingSuccess with
    | none =>
      rw [hspec.2 hrec] at ht
      simp at ht
    | some i =>
      have hg := hspec.1 i hrec
      rw [hg] at ht
      obtain rfl : t = d.timestamps.getD i 0 := (Option.some_inj.mp ht).symm
      have hbs : d.pingSuccess ≠ [] := by
        intro hb; rw [hb] at hrec; simp [lastSuccessIdx] at hrec
      have hts : d.timestamps ≠ [] := by
        intro h0
        rw [h0] at hlen
        exact hbs (List.length_eq_zero.mp hlen.symm)
      unfold DevicePingData.calculateDowntimeAging
      rw [isEmpty_false_of_ne_nil hts, isEmpty_false_of_ne_nil hbs]
      simp [hrec]
  · intro hn hne
    unfold lastSuccessTime at hn
    cases hrec : lastSuccessIdx d.pingSuccess with
    | some i =>
      rw [hspec.1 i hrec] at hn
      simp at hn
    | none =>
      have hbs : d.pingSuccess ≠ [] := by
        intro hb
        apply hne
        rw [hb] at hlen
        exact List.length_eq_zero.mp hlen
      unfold DevicePingData.calculateDowntimeAging
      rw [isEmpty_false_of_ne_nil hne, isEmpty_false_of_ne_nil hbs]
      simp [hrec]

/-- C6 (witness): a device whose samples at times 10 (success) and 20
(failure) give `downtime_aging = now - 10 = 40` at `now = 50`. -/
theorem calculateDowntimeAging_spec_witness :
    DevicePingData.calculateDowntimeAging ⟨[10, 20], [true, false]⟩ 50 = 50 - 10 :=
  (calculateDowntimeAging_spec ⟨[10, 20], [true, false]⟩ 50 (by decide)).2.1 10
    (by decide)

/-! ### Lemmas about the scheduler retry loop -/

theorem attemptPass_nil (o : String → Nat → QueryOutcome) (m a : Nat) :
    attemptPass o m a [] = ([], [], []) := rfl

theorem attemptPass_cons_success {o : String → Nat → QueryOutcome} {m a : Nat}
    {v : String} {rest : List String} (h : o v a = .success) :
    attemptPass o m a (v :: rest) =
      (⟨v, a, true⟩ :: (attemptPass o m a rest).1,
       v :: (attemptPass o m a rest).2.1,
       (attemptPass o m a rest).2.2) := by
  simp only [attemptPass, h]

theorem attemptPass_cons_failure {o : String → Nat → QueryOutcome} {m a : Nat}
    {v : String} {rest : List String} {b : Bool} (h : o v a = .failure b) :
    attemptPass o m a (v :: rest) =
      (⟨v, a, false⟩ :: (attemptPass o m a rest).1,
       (attemptPass o m a rest).2.1,
       if b && decide (a < m) then v :: (attemptPass o m a rest).2.2
       else (attemptPass o m a rest).2.2) := by
  simp only [attemptPass, h]

/-- Every record logged during one pass belongs to a vessel of the working set
and carries that pass's attempt number. -/
theorem attemptPass_records_mem (o : String → Nat → QueryOutcome) (m a : Nat) :
    ∀ (l : List String) (r : VesselQueryRec), r ∈ (attemptPass o m a l).1 →
      r.vessel ∈ l ∧ r.attempt = a := by
  intro l
  induction l with
  | nil => intro r hr; simp [attemptPass_nil] at hr
  | cons v rest ih =>
    intro r hr
    cases ho : o v a with
    | success =>
      rw [attemptPass_cons_success ho] at hr
      rcases List.mem_cons.mp hr with h | h
      · subst h; exact ⟨List.mem_cons_self _ _, rfl⟩
      · exact ⟨List.mem_cons_of_mem _ (ih r h).1, (ih r h).2⟩
    | failure b =>
      rw [attemptPass_cons_failure ho] at hr
      rcases List.mem_cons.mp hr with h | h
      · subst h; exact ⟨List.mem_cons_self _ _, rfl⟩
      · exact ⟨List.mem_cons_of_mem _ (ih r h).1, (ih r h).2⟩

/-- The vessels that succeed during a pass form a subsequence of the working
set. -/
theorem attemptPass_succ_sublist (o : String → Nat → QueryOutcome) (m a : Nat) :
    ∀ l : List String, (attemptPass o m a l).2.1.Sublist l := by
  intro l
  induction l with
  | nil => simp [attemptPass_nil]
  | cons v rest ih =>
    cases ho : o v a with
    | success => rw [attemptPass_cons_success ho]; exact ih.cons₂ v
    | failure b => rw [attemptPass_cons_failure ho]; exact ih.cons v

/-- The vessels carried into the next attempt form a subsequence of the
working set. -/
theorem attemptPass_carried_sublist (o : String → Nat → QueryOutcome) (m a : Nat) :
    ∀ l : List String, (attemptPass o m a l).2.2.Sublist l := by
  intro l
  induction l with
  | nil => simp [attemptPass_nil]
  | cons v rest ih =>
    cases ho : o v a with
    | success => rw [attemptPass_cons_success ho]; exact ih.cons v
    | failure b =>
      rw [attemptPass_cons_failure ho]
      by_cases hb : (b && decide (a < m)) = true
      · simp only [hb, if_true]; exact ih.cons₂ v
      · simp only [hb, if_false]; exact ih.cons v

/-- After the final attempt nothing is carried: the carry condition requires
`attempt < max`. -/
theorem attemptPass_carried_nil_of_ge (o : String → Nat → QueryOutcome) {m a : Nat}
    (h : m ≤ a) : ∀ l : List String, (attemptPass o m a l).2.2 = [] := by
  intro l
  induction l with
  | nil => simp [attemptPass_nil]
  | cons v rest ih =>
    cases ho : o v a with
    | success => rw [attemptPass_cons_success ho]; exact ih
    | failure b =>
      rw [attemptPass_cons_failure ho]
      have : (b && decide (a < m)) = false := by
        simp [decide_eq_false (Nat.not_lt.mpr h)]
      simp [this, ih]

/-- A vessel outside the working set is untouched by the pass: no records, not
successful, not carried. -/
theorem attemptPass_not_mem (o : String → Nat → QueryOutcome) (m a : Nat)
    (v : String) :
    ∀ l : List String, v ∉ l →
      ((attemptPass o m a l).1.filter (fun r => decide (r.vessel = v)) = []) ∧
      v ∉ (attemptPass o m a l).2.1 ∧ v ∉ (attemptPass o m a l).2.2 := by
  intro l hv
  refine ⟨?_, ?_, ?_⟩
  · rw [List.filter_eq_nil_iff]
    intro r hr
    have := (attemptPass_records_mem o m a l r hr).1
    simp only [decide_eq_true_eq]
    intro he
    exact hv (he ▸ this)
  · intro hmem
    exact hv ((attemptPass_succ_sublist o m a l).subset hmem)
  · intro hmem
    exact hv ((attemptPass_carried_sublist o m a l).subset hmem)

/-- A vessel of a duplicate-free working set receives exactly one record in the
pass, determined by its outcome; it succeeds iff the outcome is a success and
is carried iff the outcome is a retryable failure before the final attempt. -/
theorem attemptPass_mem (o : String → Nat → QueryOutcome) (m a : Nat) (v : String) :
    ∀ l : List String, v ∈ l → l.Nodup →
      ((attemptPass o m a l).1.filter (fun r => decide (r.vessel = v)) =
        (match o v a with
         | .success => [⟨v, a, true⟩]
         | .failure _ => [⟨v, a, false⟩])) ∧
      (v ∈ (attemptPass o m a l).2.1 ↔ o v a = .success) ∧
      (v ∈ (attemptPass o m a l).2.2 ↔
        ∃ b, o v a = .failure b ∧ (b && decide (a < m)) = true) := by
  intro l
  induction l with
  | nil => intro hv _; simp at hv
  | cons w rest ih =>
    intro hv hnd
    have hndr : rest.Nodup := (List.nodup_cons.mp hnd).2
    by_cases hvw : v = w
    · subst hvw
      have hvr : v ∉ rest := (List.nodup_cons.mp hnd).1
      have hnm := attemptPass_not_mem o m a v rest hvr
      cases ho : o v a with
      | success =>
        rw [attemptPass_cons_success ho]
        refine ⟨?_, ?_, ?_⟩
        · rw [List.filter_cons_of_pos (by simp), hnm.1]
        · simp [ho]
        · constructor
          · intro h; exact absurd h hnm.2.2
          · rintro ⟨b, hb, -⟩
            exact absurd hb (by simp)
      | failure b =>
        rw [attemptPass_cons_failure ho]
        refine ⟨?_, ?_, ?_⟩
        · rw [List.filter_cons_of_pos (by simp), hnm.1]
        · constructor
          · intro h; exact absurd h hnm.2.1
          · intro h
            exact absurd h (by simp)
        · by_cases hb : (b && decide (a < m)) = true
          · simp only [hb, if_true]
            constructor
            · intro _; exact ⟨b, rfl, hb⟩
            · intro _; exact List.mem_cons_self _ _
          · simp only [hb, if_false]
            constructor
            · intro h; exact absurd h hnm.2.2
            · rintro ⟨b', hb', hcond⟩
              injection hb' with hbb
              rw [← hbb] at hcond
              exact absurd hcond hb
    · have hvr : v ∈ rest := by
        rcases List.mem_cons.mp hv with h | h
        · exact absurd h hvw
        · exact h
      have ihr := ih hvr hndr
      have hwv : ¬ (w = v) := fun h => hvw h.symm
      cases ho : o w a with
      | success =>
        rw [attemptPass_cons_success ho]
        refine ⟨?_, ?_, ?_⟩
        · rw [List.filter_cons_of_neg (by simpa using hwv), ihr.1]
        · simp only [List.mem_cons]
          rw [← ihr.2.1]
          constructor
          · rintro (h | h)
            · exact absurd h hvw
            · exact h
          · intro h; exact Or.inr h
        · exact ihr.2.2
      | failure b =>
        rw [attemptPass_cons_failure ho]
        refine ⟨?_, ?_, ?_⟩
        · rw [List.filter_cons_of_neg (by simpa using hwv), ihr.1]
        · exact ihr.2.1
        · by_cases hb : (b && decide (a < m)) = true
          · simp only [hb, if_true, List.mem_cons]
            rw [← ihr.2.2]
            constructor
            · rintro (h | h)
              · exact absurd h hvw
              · exact h
            · intro h; exact Or.inr h
          · simp only [hb, if_false]
            exact ihr.2.2

theorem execRetryAux_zero (o : String → Nat → QueryOutcome) (m a : Nat)
    (failed : List String) (s : RetryState) :
    execRetryAux o m 0 a failed s = (s, failed) := rfl

theorem execRetryAux_succ_nil (o : String → Nat → QueryOutcome) (m fuel a : Nat)
    (s : RetryState) :
    execRetryAux o m (fuel + 1) a [] s = (s, []) := rfl

theorem execRetryAux_succ_ne (o : String → Nat → QueryOutcome) (m fuel a : Nat)
    {failed : List String} (s : RetryState) (h : failed ≠ []) :
    execRetryAux o m (fuel + 1) a failed s =
      execRetryAux o m fuel (a + 1) (attemptPass o m a failed).2.2
        ⟨s.records ++ (attemptPass o m a failed).1,
         s.successfulVessels ++ (attemptPass o m a failed).2.1,
         if decide (a < m) && !(attemptPass o m a failed).2.2.isEmpty
         then s.retryAttempts + (attemptPass o m a failed).2.2.length
         else s.retryAttempts⟩ := by
  simp only [execRetryAux, isEmpty_false_of_ne_nil h, Bool.false_eq_true, if_false]

theorem vesselTrace_zero (o : String → Nat → QueryOutcome) (m a : Nat) (v : String) :
    vesselTrace o m v 0 a = [] := rfl

theorem vesselTrace_succ_success {o : String → Nat → QueryOutcome} {m fuel a : Nat}
    {v : String} (h : o v a = .success) :
    vesselTrace o m v (fuel + 1) a = [⟨v, a, true⟩] := by
  simp only [vesselTrace, h]

theorem vesselTrace_succ_failure {o : String → Nat → QueryOutcome} {m fuel a : Nat}
    {v : String} {b : Bool} (h : o v a = .failure b) :
    vesselTrace o m v (fuel + 1) a =
      ⟨v, a, false⟩ ::
        (if b && decide (a < m) then vesselTrace o m v fuel (a + 1) else []) := by
  simp only [vesselTrace, h]

theorem traceSucceeds_zero (o : String → Nat → QueryOutcome) (m a : Nat) (v : String) :
    traceSucceeds o m v 0 a = false := rfl

theorem traceSucceeds_succ_success {o : String → Nat → QueryOutcome} {m fuel a : Nat}
    {v : String} (h : o v a = .success) :
    traceSucceeds o m v (fuel + 1) a = true := by
  simp only [traceSucceeds, h]

theorem traceSucceeds_succ_failure {o : String → Nat → QueryOutcome} {m fuel a : Nat}
    {v : String} {b : Bool} (h : o v a = .failure b) :
    traceSucceeds o m v (fuel + 1) a =
      (if b && decide (a < m) then traceSucceeds o m v fuel (a + 1) else false) := by
  simp only [traceSucceeds, h]

/-- The per-vessel content of the loop state: a vessel in the (duplicate-free)
working set contributes exactly its trace to the record sink and appears among
the successful vessels iff its trace ends in success; a vessel outside the
working set is untouched. -/
theorem execRetryAux_filter (o : String → Nat → QueryOutcome) (m : Nat) (v : String) :
    ∀ (fuel attempt : Nat) (failed : List String) (s : RetryState), failed.Nodup →
      (v ∈ failed →
        (execRetryAux o m fuel attempt failed s).1.records.filter
            (fun r => decide (r.vessel = v)) =
          s.records.filter (fun r => decide (r.vessel = v)) ++
            vesselTrace o m v fuel attempt ∧
        (v ∈ (execRetryAux o m fuel attempt failed s).1.successfulVessels ↔
          v ∈ s.successfulVessels ∨ traceSucceeds o m v fuel attempt = true)) ∧
      (v ∉ failed →
        (execRetryAux o m fuel attempt failed s).1.records.filter
            (fun r => decide (r.vessel = v)) =
          s.records.filter (fun r => decide (r.vessel = v)) ∧
        (v ∈ (execRetryAux o m fuel attempt failed s).1.successfulVessels ↔
          v ∈ s.successfulVessels)) := by
  intro fuel
  induction fuel with
  | zero =>
    intro attempt failed s _
    rw [execRetryAux_zero, vesselTrace_zero, traceSucceeds_zero]
    constructor
    · intro _
      refine ⟨by simp, ?_⟩
      simp
    · intro _
      exact ⟨rfl, Iff.rfl⟩
  | succ fuel ih =>
    intro attempt failed s hnd
    by_cases hfe : failed = []
    · subst hfe
      rw [execRetryAux_succ_nil]
      constructor
      · intro hv; simp at hv
      · intro _
        exact ⟨rfl, Iff.rfl⟩
    · rw [execRetryAux_succ_ne o m fuel attempt s hfe]
      have hcnd : (attemptPass o m attempt failed).2.2.Nodup :=
        (attemptPass_carried_sublist o m attempt failed).nodup hnd
      have ih' := ih (attempt + 1) (attemptPass o m attempt failed).2.2
        ⟨s.records ++ (attemptPass o m attempt failed).1,
         s.successfulVessels ++ (attemptPass o m attempt failed).2.1,
         if decide (attempt < m) && !(attemptPass o m attempt failed).2.2.isEmpty
         then s.retryAttempts + (attemptPass o m attempt failed).2.2.length
         else s.retryAttempts⟩ hcnd
      constructor
      · -- v participates in this attempt
        intro hv
        have hm := attemptPass_mem o m attempt v failed hv hnd
        cases ho : o v attempt with
        | success =>
          rw [ho] at hm
          have hm1 : (attemptPass o m attempt failed).1.filter
              (fun r => decide (r.vessel = v)) = [⟨v, attempt, true⟩] := by
            rw [hm.1]
          have hnc : v ∉ (attemptPass o m attempt failed).2.2 := by
            intro h
            obtain ⟨b, hb, -⟩ := hm.2.2.mp h
            exact absurd hb (by simp)
          have hfin := ih'.2 hnc
          constructor
          · rw [hfin.1]
            simp only [List.filter_append]
            rw [hm1, vesselTrace_succ_success ho]
          · rw [hfin.2]
            have hvs : v ∈ (attemptPass o m attempt failed).2.1 := hm.2.1.mpr rfl
            simp [List.mem_append, traceSucceeds_succ_success ho, hvs]
        | failure b =>
          rw [ho] at hm
          have hm1 : (attemptPass o m attempt failed).1.filter
              (fun r => decide (r.vessel = v)) = [⟨v, attempt, false⟩] := by
            rw [hm.1]
          have hvs : v ∉ (attemptPass o m attempt failed).2.1 := by
            intro h
            exact absurd (hm.2.1.mp h) (by simp)
          by_cases hb : (b && decide (attempt < m)) = true
          · -- retried: v is carried into the next attempt
            have hc : v ∈ (attemptPass o m attempt failed).2.2 :=
              hm.2.2.mpr ⟨b, rfl, hb⟩
            have hfin := (ih'.1) hc
            constructor
            · rw [hfin.1]
              simp only [List.filter_append]
              rw [hm1, vesselTrace_succ_failure ho, hb]
              simp
            · rw [hfin.2]
              rw [traceSucceeds_succ_failure ho, hb]
              simp only [List.mem_append, if_true]
              constructor
              · rintro ((h | h) | h)
                · exact Or.inl h
                · exact absurd h hvs
                · exact Or.inr h
              · rintro (h | h)
                · exact Or.inl (Or.inl h)
                · exact Or.inr h
          · -- permanent failure: v leaves the working set
            have hbf : (b && decide (attempt < m)) = false :=
              Bool.eq_false_iff.mpr hb
            have hnc : v ∉ (attemptPass o m attempt failed).2.2 := by
              intro h
              obtain ⟨b', hb', hcond⟩ := hm.2.2.mp h
              injection hb' with hbb
              rw [← hbb] at hcond
              exact absurd hcond hb
            have hfin := ih'.2 hnc
            constructor
            · rw [hfin.1]
              simp only [List.filter_append]
              rw [hm1, vesselTrace_succ_failure ho, hbf]
              simp
            · rw [hfin.2]
              rw [traceSucceeds_succ_failure ho, hbf]
              simp only [List.mem_append, if_false]
              constructor
              · rintro (h | h)
                · exact Or.inl h
                · exact absurd h hvs
              · rintro (h | h)
                · exact Or.inl h
                · exact absurd h (by simp)
      · -- v is not in the working set: untouched by the whole remaining loop
        intro hv
        have hnm := attemptPass_not_mem o m attempt v failed hv
        have hnc : v ∉ (attemptPass o m attempt failed).2.2 := hnm.2.2
        have hfin := ih'.2 hnc
        constructor
        · rw [hfin.1]
          simp only [List.filter_append]
          rw [hnm.1, List.append_nil]
        · rw [hfin.2]
          simp only [List.mem_append]
          constructor
          · rintro (h | h)
            · exact h
            · exact absurd h hnm.2.1
          · intro h; exact Or.inl h

/-- A vessel's trace has at most one record per remaining attempt. -/
theorem vesselTrace_length_le (o : String → Nat → QueryOutcome) (m : Nat)
    (v : String) : ∀ fuel a, (vesselTrace o m v fuel a).length ≤ fuel := by
  intro fuel
  induction fuel with
  | zero => intro a; rw [vesselTrace_zero]; simp
  | succ fuel ih =>
    intro a
    cases ho : o v a with
    | success => rw [vesselTrace_succ_success ho]; simp
    | failure b =>
      rw [vesselTrace_succ_failure ho]
      simp only [List.length_cons]
      have hle : (if (b && decide (a < m)) = true
          then vesselTrace o m v fuel (a + 1) else []).length ≤ fuel := by
        by_cases hb : (b && decide (a < m)) = true
        · rw [if_pos hb]; exact ih (a + 1)
        · rw [if_neg hb]; simp
      omega

/-- A nonempty trace ends in a record whose success flag is `traceSucceeds`. -/
theorem vesselTrace_getLast (o : String → Nat → QueryOutcome) (m : Nat)
    (v : String) : ∀ fuel a, 1 ≤ fuel →
    ∃ r, (vesselTrace o m v fuel a).getLast? = some r ∧
      r.success = traceSucceeds o m v fuel a := by
  intro fuel
  induction fuel with
  | zero => intro a h; omega
  | succ fuel ih =>
    intro a _
    cases ho : o v a with
    | success =>
      refine ⟨⟨v, a, true⟩, ?_, ?_⟩
      · rw [vesselTrace_succ_success ho]; rfl
      · rw [traceSucceeds_succ_success ho]
    | failure b =>
      by_cases hb : (b && decide (a < m)) = true
      · cases fuel with
        | zero =>
          refine ⟨⟨v, a, false⟩, ?_, ?_⟩
          · rw [vesselTrace_succ_failure ho, if_pos hb, vesselTrace_zero]; rfl
          · rw [traceSucceeds_succ_failure ho, if_pos hb, traceSucceeds_zero]
        | succ fuel' =>
          obtain ⟨r, hr1, hr2⟩ := ih (a + 1) (by omega)
          refine ⟨r, ?_, ?_⟩
          · rw [vesselTrace_succ_failure ho, if_pos hb]
            cases hl : vesselTrace o m v (fuel' + 1) (a + 1) with
            | nil => rw [hl] at hr1; simp at hr1
            | cons c cs =>
              rw [hl] at hr1
              rw [List.getLast?_cons_cons]
              exact hr1
          · rw [traceSucceeds_succ_failure ho, if_pos hb]
            exact hr2
      · refine ⟨⟨v, a, false⟩, ?_, ?_⟩
        · rw [vesselTrace_succ_failure ho, if_neg hb]; rfl
        · rw [traceSucceeds_succ_failure ho, if_neg hb]

/-- C3: for every vessel of a run, at most `max_attempts` `VesselQueryResult`
records are logged, and the last one has `success = true` iff the vessel is in
the run's set of successful vessels. -/
theorem vesselQueryResult_per_vessel (o : String → Nat → QueryOutcome) (m : Nat)
    (vessels : List String) (v : String) (hnd : vessels.Nodup) (hm : 1 ≤ m)
    (hv : v ∈ vessels) :
    ((executeVesselQueriesWithRetry o m vessels).1.records.filter
        (fun r => decide (r.vessel = v))).length ≤ m ∧
    ∃ r, ((executeVesselQueriesWithRetry o m vessels).1.records.filter
        (fun r => decide (r.vessel = v))).getLast? = some r ∧
      (r.success = true ↔
        v ∈ (executeVesselQueriesWithRetry o m vessels).1.successfulVessels) := by
  have hfil := (execRetryAux_filter o m v m 1 vessels ⟨[], [], 0⟩ hnd).1 hv
  have hrec : (executeVesselQueriesWithRetry o m vessels).1.records.filter
      (fun r => decide (r.vessel = v)) = vesselTrace o m v m 1 := by
    have h1 := hfil.1
    simpa [executeVesselQueriesWithRetry] using h1
  constructor
  · rw [hrec]; exact vesselTrace_length_le o m v m 1
  · obtain ⟨r, hr1, hr2⟩ := vesselTrace_getLast o m v m 1 hm
    refine ⟨r, by rw [hrec]; exact hr1, ?_⟩
    have hsucc := hfil.2
    rw [show (executeVesselQueriesWithRetry o m vessels) =
      execRetryAux o m m 1 vessels ⟨[], [], 0⟩ from rfl, hsucc, hr2]
    simp

/-- C3 (witness): in the retry-exhaustion scenario (vessel B always fails
retryably, A and C succeed immediately), vessel B's records number at most 3
and the last one is unsuccessful iff B is not among the successful vessels. -/
theorem vesselQueryResult_per_vessel_witness :
    (((executeVesselQueriesWithRetry scenarioOutcome 3 ["A", "B", "C"]).1.records.filter
        (fun r => decide (r.vessel = "B"))).length ≤ 3) ∧
    ∃ r, ((executeVesselQueriesWithRetry scenarioOutcome 3 ["A", "B", "C"]).1.records.filter
        (fun r => decide (r.vessel = "B"))).getLast? = some r ∧
      (r.success = true ↔
        "B" ∈ (executeVesselQueriesWithRetry scenarioOutcome 3
          ["A", "B", "C"]).1.successfulVessels) :=
  vesselQueryResult_per_vessel scenarioOutcome 3 ["A", "B", "C"] "B"
    (by decide) (by decide) (by decide)

/-- Nothing is ever carried out of an empty working set. -/
theorem wsFrom_nil (o : String → Nat → QueryOutcome) (m a : Nat) :
    ∀ j, wsFrom o m a [] j = [] := by
  intro j
  induction j with
  | zero => rfl
  | succ j ih =>
    show (attemptPass o m (a + j) (wsFrom o m a [] j)).2.2 = []
    rw [ih]
    rfl

/-- Shifting the working-set recursion by one pass. -/
theorem wsFrom_shift (o : String → Nat → QueryOutcome) (m a : Nat)
    (failed : List String) :
    ∀ j, wsFrom o m a failed (j + 1) =
      wsFrom o m (a + 1) (attemptPass o m a failed).2.2 j := by
  intro j
  induction j with
  | zero =>
    show (attemptPass o m (a + 0) (wsFrom o m a failed 0)).2.2 = _
    rw [Nat.add_zero]
    rfl
  | succ j ih =>
    show (attemptPass o m (a + (j + 1)) (wsFrom o m a failed (j + 1))).2.2 = _
    rw [ih, show a + (j + 1) = (a + 1) + j from by omega]
    rfl

/-- The retry increment of one pass always equals the size of the carried set:
when the carried set is empty the increment is zero, and past the final
attempt nothing is carried. -/
theorem retryIncrement_eq (o : String → Nat → QueryOutcome) (m a : Nat)
    (failed : List String) (x : Nat) :
    (if decide (a < m) && !(attemptPass o m a failed).2.2.isEmpty
     then x + (attemptPass o m a failed).2.2.length else x)
      = x + (attemptPass o m a failed).2.2.length := by
  by_cases ha : a < m
  · cases hc : (attemptPass o m a failed).2.2 with
    | nil => simp [hc]
    | cons c cs => simp [hc, ha]
  · have hnil := attemptPass_carried_nil_of_ge o (Nat.not_lt.mp ha) failed
    simp [hnil, ha]

/-- The retry total accumulated by the loop is the sum of the sizes of the
carried sets of the executed passes. -/
theorem execRetryAux_retryAttempts (o : String → Nat → QueryOutcome) (m : Nat) :
    ∀ (fuel attempt : Nat) (failed : List String) (s : RetryState),
    (execRetryAux o m fuel attempt failed s).1.retryAttempts =
      s.retryAttempts +
        ∑ j ∈ Finset.range fuel, (wsFrom o m attempt failed (j + 1)).length := by
  intro fuel
  induction fuel with
  | zero =>
    intro attempt failed s
    rw [execRetryAux_zero]
    simp
  | succ fuel ih =>
    intro attempt failed s
    by_cases hfe : failed = []
    · subst hfe
      rw [execRetryAux_succ_nil]
      have hz : ∀ j ∈ Finset.range (fuel + 1),
          (wsFrom o m attempt ([] : List String) (j + 1)).length = 0 := by
        intro j _
        rw [wsFrom_nil]
        rfl
      rw [Finset.sum_congr rfl hz]
      simp
    · rw [execRetryAux_succ_ne o m fuel attempt s hfe, ih]
      simp only [retryIncrement_eq]
      rw [Finset.sum_range_succ']
      have hws1 : wsFrom o m attempt failed 1 = (attemptPass o m attempt failed).2.2 := by
        show (attemptPass o m (attempt + 0) (wsFrom o m attempt failed 0)).2.2 = _
        rw [Nat.add_zero]
        rfl
      have hshift : ∀ j ∈ Finset.range fuel,
          (wsFrom o m attempt failed (j + 1 + 1)).length =
            (wsFrom o m (attempt + 1) (attemptPass o m attempt failed).2.2 (j + 1)).length := by
        intro j _
        rw [wsFrom_shift]
      rw [Finset.sum_congr rfl hshift, hws1]
      omega

/-- C4: the retry total of a run equals the sum, over attempts `2..N`, of the
number of vessels carried into that attempt (`wsFrom o m 1 vessels (a - 1)` is
the working set entering attempt `a`); in particular, in the scenario with
three vessels where B fails retryably on every attempt while A and C succeed
on attempt 1, the run reports `retry_attempts = 2`. -/
theorem retryAttempts_eq_carried_sum :
    (∀ (o : String → Nat → QueryOutcome) (m : Nat) (vessels : List String),
      (executeVesselQueriesWithRetry o m vessels).1.retryAttempts =
        ∑ a ∈ Finset.Icc 2 m, (wsFrom o m 1 vessels (a - 1)).length) ∧
    (executeVesselQueriesWithRetry scenarioOutcome 3 ["A", "B", "C"]).1.retryAttempts = 2 := by
  constructor
  · intro o m vessels
    have h := execRetryAux_retryAttempts o m m 1 vessels ⟨[], [], 0⟩
    rw [show executeVesselQueriesWithRetry o m vessels =
      execRetryAux o m m 1 vessels ⟨[], [], 0⟩ from rfl, h]
    simp only [Nat.zero_add]
    rw [← Nat.Ico_succ_right, Finset.sum_Ico_eq_sum_range]
    cases m with
    | zero => simp
    | succ m' =>
      rw [Finset.sum_range_succ]
      have hlast : wsFrom o (m' + 1) 1 vessels (m' + 1) = [] := by
        show (attemptPass o (m' + 1) (1 + m') (wsFrom o (m' + 1) 1 vessels m')).2.2 = []
        exact attemptPass_carried_nil_of_ge o (by omega) _
      rw [hlast]
      simp only [List.length_nil, Nat.add_zero]
      have hrange : m' + 1 + 1 - 2 = m' := by omega
      rw [hrange]
      refine Finset.sum_congr rfl ?_
      intro i _
      have : 2 + i - 1 = i + 1 := by omega
      rw [this]
  · decide

/-- C5 (amended): retryability is decided by keyword matching, not by HTTP
class.  An error message containing an AUTH keyword such as "unauthorized" is
never retried by the scheduler, and such a vessel gets exactly one
`VesselQueryResult` (with `success = false`); but the probe client itself
retries ANY `requests.RequestException` — HTTP 4xx included — calling the
operation `max_retries + 1` times, while only non-`RequestException` errors
surface after a single call. -/
theorem errorClassification_spec :
    (∀ msg t, strContains (pyToLower msg) "unauthorized" = true →
      shouldRetryVesselQuery msg t = false) ∧
    (∀ (o : String → Nat → QueryOutcome) (m : Nat) (vessels : List String)
        (v : String), vessels.Nodup → 1 ≤ m → v ∈ vessels →
      (∀ k, o v k = .failure false) →
      (executeVesselQueriesWithRetry o m vessels).1.records.filter
        (fun r => decide (r.vessel = v)) = [⟨v, 1, false⟩]) ∧
    (∀ (maxRetries : Nat) (msg : String),
      (retryOperation (fun _ => Except.error (ClientError.requestException msg)
        : Nat → Except ClientError Unit) maxRetries).1 = maxRetries + 1) ∧
    (∀ (maxRetries : Nat) (msg : String),
      (retryOperation (fun _ => Except.error (ClientError.otherError msg)
        : Nat → Except ClientError Unit) maxRetries).1 = 1) := by
  refine ⟨?_, ?_, ?_, ?_⟩
  · intro msg t h
    simp only [shouldRetryVesselQuery]
    have hany : (nonRetryableErrorKeywords.any
        fun kw => strContains (pyToLower msg) kw) = true := by
      rw [List.any_eq_true]
      refine ⟨"unauthorized", ?_, h⟩
      simp [nonRetryableErrorKeywords]
    rw [if_pos hany]
  · intro o m vessels v hnd hm hv hout
    have hfil := (execRetryAux_filter o m v m 1 vessels ⟨[], [], 0⟩ hnd).1 hv
    have hrec : (executeVesselQueriesWithRetry o m vessels).1.records.filter
        (fun r => decide (r.vessel = v)) = vesselTrace o m v m 1 := by
      have h1 := hfil.1
      simpa [executeVesselQueriesWithRetry] using h1
    rw [hrec]
    cases m with
    | zero => omega
    | succ m' =>
      rw [vesselTrace_succ_failure (hout 1), if_neg (by simp)]
  · intro maxRetries msg
    have aux : ∀ (fuel attempt : Nat),
        (retryOperationAux (fun _ => Except.error (ClientError.requestException msg)
          : Nat → Except ClientError Unit) attempt fuel).1 = attempt + fuel + 1 := by
      intro fuel
      induction fuel with
      | zero => intro attempt; rfl
      | succ fuel ih =>
        intro attempt
        show (retryOperationAux _ (attempt + 1) fuel).1 = _
        rw [ih]
        omega
    have := aux maxRetries 0
    simpa [retryOperation] using this
  · intro maxRetries msg
    cases maxRetries with
    | zero => rfl
    | succ n => rfl

/-- C5 (amended, witness): a 401 whose message carries "Unauthorized" is
classified non-retryable and its vessel logs exactly one failed record, while
the probe client calls an always-`RequestException` operation 4 times with
`max_retries = 3`. -/
theorem errorClassification_spec_witness :
    shouldRetryVesselQuery "Query failed with status 401: Unauthorized"
      "RequestException" = false ∧
    (executeVesselQueriesWithRetry (fun _ _ => .failure false) 3 ["X"]).1.records.filter
      (fun r => decide (r.vessel = "X")) = [⟨"X", 1, false⟩] ∧
    (retryOperation (fun _ => Except.error (ClientError.requestException "boom")
      : Nat → Except ClientError Unit) 3).1 = 4 := by
  refine ⟨?_, ?_, ?_⟩
  · exact errorClassification_spec.1 "Query failed with status 401: Unauthorized"
      "RequestException" (by decide)
  · exact errorClassification_spec.2.1 (fun _ _ => .failure false) 3 ["X"] "X"
      (by decide) (by decide) (by decide) (fun _ => rfl)
  · exact errorClassification_spec.2.2.1 3 "boom"

/-! ### Association-list lemmas -/

theorem alookup_eq_none {α β : Type} [DecidableEq α] (k : α) :
    ∀ l : List (α × β), alookup k l = none ↔ ∀ p ∈ l, p.1 ≠ k := by
  intro l
  induction l with
  | nil => simp [alookup]
  | cons x rest ih =>
    obtain ⟨k', v⟩ := x
    by_cases hk : k' = k
    · subst hk
      simp [alookup]
    · simp [alookup, hk, ih]

theorem alookup_mem {α β : Type} [DecidableEq α] {k : α} {v : β} :
    ∀ {l : List (α × β)}, alookup k l = some v → (k, v) ∈ l := by
  intro l
  induction l with
  | nil => intro h; simp [alookup] at h
  | cons x rest ih =>
    intro h
    obtain ⟨k', w⟩ := x
    by_cases hk : k' = k
    · subst hk
      have h' : (if k' = k' then some w else alookup k' rest) = some v := h
      rw [if_pos rfl] at h'
      obtain rfl : w = v := Option.some_inj.mp h'
      exact List.mem_cons_self _ _
    · simp only [alookup, if_neg hk] at h
      exact List.mem_cons_of_mem _ (ih h)

theorem alookup_append_none {α β : Type} [DecidableEq α] (k : α) :
    ∀ (xs ys : List (α × β)), alookup k xs = none →
      alookup k (xs ++ ys) = alookup k ys := by
  intro xs ys
  induction xs with
  | nil => intro _; rfl
  | cons x rest ih =>
    intro h
    obtain ⟨k', w⟩ := x
    by_cases hk : k' = k
    · simp only [alookup, if_pos hk] at h
      exact Option.noConfusion h
    · simp only [List.cons_append, alookup, if_neg hk] at h ⊢
      exact ih h

theorem alookup_append_some {α β : Type} [DecidableEq α] (k : α) {v : β} :
    ∀ (xs ys : List (α × β)), alookup k xs = some v →
      alookup k (xs ++ ys) = some v := by
  intro xs ys
  induction xs with
  | nil => intro h; simp [alookup] at h
  | cons x rest ih =>
    intro h
    obtain ⟨k', w⟩ := x
    by_cases hk : k' = k
    · simp only [alookup, if_pos hk] at h
      simp only [List.cons_append, alookup, if_pos hk, h]
    · simp only [alookup, if_neg hk] at h
      simp only [List.cons_append, alookup, if_neg hk]
      exact ih h

theorem alookup_filter_ne {α β : Type} [DecidableEq α] (k : α) :
    ∀ l : List (α × β), alookup k (l.filter (fun p => decide (p.1 ≠ k))) = none := by
  intro l
  induction l with
  | nil => rfl
  | cons x rest ih =>
    obtain ⟨k', w⟩ := x
    by_cases hk : k' = k
    · subst hk
      rw [List.filter_cons_of_neg (by simp)]
      exact ih
    · rw [List.filter_cons_of_pos (by simpa using hk)]
      simp only [alookup, if_neg hk]
      exact ih

theorem alookup_map_fst {α β γ : Type} [DecidableEq α] (g : α × β → γ)
    (k : α) (v : β) :
    ∀ l : List (α × β), (l.map Prod.fst).Nodup → (k, v) ∈ l →
      alookup k (l.map (fun p => (p.1, g p))) = some (g (k, v)) := by
  intro l
  induction l with
  | nil => intro _ h; simp at h
  | cons x rest ih =>
    intro hnd hm
    obtain ⟨k', w⟩ := x
    rw [List.map_cons, List.nodup_cons] at hnd
    rcases List.mem_cons.mp hm with h | h
    · rw [List.map_cons]
      have h1 : k = k' := congrArg Prod.fst h
      have h2 : v = w := congrArg Prod.snd h
      subst h1
      subst h2
      simp [alookup]
    · have hk : ¬ (k' = k) := by
        intro he
        subst he
        have hmm : k' ∈ rest.map Prod.fst := List.mem_map_of_mem Prod.fst h
        exact hnd.1 hmm
      rw [List.map_cons]
      simp only [alookup, if_neg hk]
      exact ih hnd.2 h

theorem nodup_map_inj {α β : Type} {f : α → β} :
    ∀ {l : List α}, (l.map f).Nodup →
      ∀ {p q : α}, p ∈ l → q ∈ l → f p = f q → p = q := by
  intro l
  induction l with
  | nil => intro _ p q hp; simp at hp
  | cons x rest ih =>
    intro hnd p q hp hq hf
    rw [List.map_cons, List.nodup_cons] at hnd
    rcases List.mem_cons.mp hp with hp1 | hp1 <;>
      rcases List.mem_cons.mp hq with hq1 | hq1
    · rw [hp1, hq1]
    · subst hp1
      exfalso
      apply hnd.1
      rw [hf]
      exact List.mem_map_of_mem f hq1
    · subst hq1
      exfalso
      apply hnd.1
      rw [← hf]
      exact List.mem_map_of_mem f hp1
    · exact ih hnd.2 hp1 hq1 hf

/-- C2: approval decisions are accepted only while the request is PENDING (in
the pending map); a decision on a pending request performs exactly one terminal
transition (APPROVED/REJECTED) and moves the request out of the pending map;
completed (terminal) requests are never modified by any later operation; every
operation preserves the workflow invariant; a pending request whose deadline
has passed transitions to the TIMEOUT terminal state; and the JIRA-side
`submit_approval_response` fails on any request that is no longer PENDING. -/
theorem approval_terminal_once (maxPending timeoutMinutes : Nat) (s : WfState)
    (hinv : WfInv s) :
    (∀ id approved now, alookup id s.pending = none →
      submitApprovalDecision s id approved now =
        Except.error "Request not found or already processed" ∧
      wfStep maxPending timeoutMinutes s (.respond id approved now) = s) ∧
    (∀ id approved now req, alookup id s.pending = some req →
      ∃ s' st, submitApprovalDecision s id approved now = Except.ok (s', st) ∧
        st.isTerminal = true ∧ alookup id s'.pending = none ∧
        alookup id s'.completed =
          some { req with status := st, respondedAt := some now }) ∧
    (∀ op : WfOp, op.fresh s → ∀ id r, alookup id s.completed = some r →
      alookup id (wfStep maxPending timeoutMinutes s op).completed = some r) ∧
    (∀ op : WfOp, op.fresh s → WfInv (wfStep maxPending timeoutMinutes s op)) ∧
    (∀ id req now, alookup id s.pending = some req →
      req.requestedAt + timeoutMinutes < now →
      alookup id (checkTimeouts timeoutMinutes now s).pending = none ∧
      alookup id (checkTimeouts timeoutMinutes now s).completed =
        some { req with status := .timeout, respondedAt := some now }) ∧
    (∀ (requests : List (String × ApprovalReq)) id approved now req,
      alookup id requests = some req → req.status ≠ .pending →
      submitApprovalResponse requests id approved now =
        Except.error "Approval request already responded to") := by
  obtain ⟨hip, hic, hid, hin⟩ := hinv
  refine ⟨?_, ?_, ?_, ?_, ?_, ?_⟩
  · -- decisions on non-pending requests fail and leave the state unchanged
    intro id approved now h
    have h1 : submitApprovalDecision s id approved now =
        Except.error "Request not found or already processed" := by
      unfold submitApprovalDecision
      rw [h]
    refine ⟨h1, ?_⟩
    simp only [wfStep]
    rw [h1]
  · -- decisions on pending requests make one terminal transition
    intro id approved now req h
    have h1 : submitApprovalDecision s id approved now = Except.ok
        (⟨s.pending.filter (fun p => decide (p.1 ≠ id)),
          (id, { req with
                 status := (if approved then .approved else .rejected),
                 respondedAt := some now }) :: s.completed⟩,
         (if approved then ApprovalStatus.approved else ApprovalStatus.rejected)) := by
      unfold submitApprovalDecision
      rw [h]
    refine ⟨_, _, h1, ?_, ?_, ?_⟩
    · cases approved
      · rfl
      · rfl
    · exact alookup_filter_ne id s.pending
    · simp [alookup]
  · -- completed requests are never modified
    intro op hfresh id r hr
    cases op with
    | submit sid snow =>
      simp only [wfStep, submitApprovalRequest]
      by_cases hcap : maxPending ≤ s.pending.length
      · rw [if_pos hcap]
        exact hr
      · rw [if_neg hcap]
        exact hr
    | respond rid rapp rnow =>
      simp only [wfStep]
      cases hlook : alookup rid s.pending with
      | none =>
        have h1 : submitApprovalDecision s rid rapp rnow =
            Except.error "Request not found or already processed" := by
          unfold submitApprovalDecision
          rw [hlook]
        rw [h1]
        exact hr
      | some req =>
        have h1 : submitApprovalDecision s rid rapp rnow = Except.ok
            (⟨s.pending.filter (fun p => decide (p.1 ≠ rid)),
              (rid, { req with
                      status := (if rapp then .approved else .rejected),
                      respondedAt := some rnow }) :: s.completed⟩,
             (if rapp then ApprovalStatus.approved else ApprovalStatus.rejected)) := by
          unfold submitApprovalDecision
          rw [hlook]
        rw [h1]
        have hmem : (rid, req) ∈ s.pending := alookup_mem hlook
        have hnone : alookup rid s.completed = none := hid _ hmem
        have hne : ¬ (rid = id) := by
          intro he
          rw [he] at hnone
          rw [hnone] at hr
          exact Option.noConfusion hr
        show alookup id ((rid, _) :: s.completed) = some r
        simp only [alookup, if_neg hne]
        exact hr
    | timeouts tnow =>
      simp only [wfStep, checkTimeouts]
      have hmn : alookup id
          ((s.pending.filter (fun p => decide (p.2.requestedAt + timeoutMinutes < tnow))).map
            (fun p => (p.1, { p.2 with status := .timeout, respondedAt := some tnow }))) =
          none := by
        rw [alookup_eq_none]
        intro q hq
        obtain ⟨p, hp, rfl⟩ := List.mem_map.mp hq
        intro hqk
        have hqk' : p.1 = id := hqk
        have hpm : p ∈ s.pending := List.mem_of_mem_filter hp
        have hnone := hid p hpm
        rw [hqk'] at hnone
        rw [hnone] at hr
        exact Option.noConfusion hr
      rw [alookup_append_none _ _ _ hmn]
      exact hr
  · -- the invariant is preserved
    intro op hfresh
    cases op with
    | submit sid snow =>
      obtain ⟨hf1, hf2⟩ := hfresh
      simp only [wfStep, submitApprovalRequest]
      by_cases hcap : maxPending ≤ s.pending.length
      · rw [if_pos hcap]
        exact ⟨hip, hic, hid, hin⟩
      · rw [if_neg hcap]
        refine ⟨?_, hic, ?_, ?_⟩
        · intro p hp
          rcases List.mem_cons.mp hp with h | h
          · rw [h]
          · exact hip p h
        · intro p hp
          rcases List.mem_cons.mp hp with h | h
          · rw [h]; exact hf2
          · exact hid p h
        · rw [List.map_cons, List.nodup_cons]
          refine ⟨?_, hin⟩
          intro hmem
          obtain ⟨p, hp, hpe⟩ := List.mem_map.mp hmem
          exact (alookup_eq_none sid s.pending).mp hf1 p hp hpe
    | respond rid rapp rnow =>
      simp only [wfStep]
      cases hlook : alookup rid s.pending with
      | none =>
        have h1 : submitApprovalDecision s rid rapp rnow =
            Except.error "Request not found or already processed" := by
          unfold submitApprovalDecision
          rw [hlook]
        rw [h1]
        exact ⟨hip, hic, hid, hin⟩
      | some req =>
        have h1 : submitApprovalDecision s rid rapp rnow = Except.ok
            (⟨s.pending.filter (fun p => decide (p.1 ≠ rid)),
              (rid, { req with
                      status := (if rapp then .approved else .rejected),
                      respondedAt := some rnow }) :: s.completed⟩,
             (if rapp then ApprovalStatus.approved else ApprovalStatus.rejected)) := by
          unfold submitApprovalDecision
          rw [hlook]
        rw [h1]
        refine ⟨?_, ?_, ?_, ?_⟩
        · intro p hp
          exact hip p (List.mem_of_mem_filter hp)
        · intro p hp
          rcases List.mem_cons.mp hp with h | h
          · rw [h]
            cases rapp
            · rfl
            · rfl
          · exact hic p h
        · intro p hp
          have hpm : p ∈ s.pending := List.mem_of_mem_filter hp
          have hpf := List.of_mem_filter hp
          have hpne : p.1 ≠ rid := of_decide_eq_true hpf
          have hne2 : ¬ (rid = p.1) := fun he => hpne he.symm
          show alookup p.1 ((rid, _) :: s.completed) = none
          simp only [alookup]
          rw [if_neg hne2]
          exact hid p hpm
        · have hsub : ((s.pending.filter (fun p => decide (p.1 ≠ rid))).map
              Prod.fst).Sublist (s.pending.map Prod.fst) :=
            List.Sublist.map Prod.fst (List.filter_sublist _)
          exact hin.sublist hsub
    | timeouts tnow =>
      simp only [wfStep, checkTimeouts]
      refine ⟨?_, ?_, ?_, ?_⟩
      · intro p hp
        exact hip p (List.mem_of_mem_filter hp)
      · intro p hp
        rcases List.mem_append.mp hp with h | h
        · obtain ⟨q, hq, rfl⟩ := List.mem_map.mp h
          rfl
        · exact hic p h
      · intro p hp
        have hpm : p ∈ s.pending := List.mem_of_mem_filter hp
        have hpf := List.of_mem_filter hp
        have hmn : alookup p.1
            ((s.pending.filter (fun q => decide (q.2.requestedAt + timeoutMinutes < tnow))).map
              (fun q => (q.1, { q.2 with status := .timeout, respondedAt := some tnow }))) =
            none := by
          rw [alookup_eq_none]
          intro q hq
          obtain ⟨q0, hq0, rfl⟩ := List.mem_map.mp hq
          intro hqk
          have hqk' : q0.1 = p.1 := hqk
          have hq0m : q0 ∈ s.pending := List.mem_of_mem_filter hq0
          have hq0f := List.of_mem_filter hq0
          have heq : q0 = p := nodup_map_inj hin hq0m hpm hqk'
          rw [heq] at hq0f
          rw [hq0f] at hpf
          simp at hpf
        rw [alookup_append_none _ _ _ hmn]
        exact hid p hpm
      · have hsub : ((s.pending.filter
            (fun p => !(decide (p.2.requestedAt + timeoutMinutes < tnow)))).map
              Prod.fst).Sublist (s.pending.map Prod.fst) :=
          List.Sublist.map Prod.fst (List.filter_sublist _)
        exact hin.sublist hsub
  · -- past-deadline pending requests reach the TIMEOUT terminal state
    intro id req now h hlate
    have hmem : (id, req) ∈ s.pending := alookup_mem h
    simp only [checkTimeouts]
    constructor
    · rw [alookup_eq_none]
      intro p hp hpk
      have hpm : p ∈ s.pending := List.mem_of_mem_filter hp
      have hpf := List.of_mem_filter hp
      have hpk' : p.1 = (id, req).1 := hpk
      have heq : p = (id, req) := nodup_map_inj hin hpm hmem hpk'
      rw [heq] at hpf
      rw [decide_eq_true hlate] at hpf
      simp at hpf
    · have hmem2 : (id, req) ∈ s.pending.filter
          (fun p => decide (p.2.requestedAt + timeoutMinutes < now)) :=
        List.mem_filter.mpr ⟨hmem, decide_eq_true hlate⟩
      have hnd2 : ((s.pending.filter
          (fun p => decide (p.2.requestedAt + timeoutMinutes < now))).map
            Prod.fst).Nodup := by
        have hsub : ((s.pending.filter
            (fun p => decide (p.2.requestedAt + timeoutMinutes < now))).map
              Prod.fst).Sublist (s.pending.map Prod.fst) :=
          List.Sublist.map Prod.fst (List.filter_sublist _)
        exact hin.sublist hsub
      have hsome := alookup_map_fst
        (fun p => { p.2 with status := ApprovalStatus.timeout, respondedAt := some now })
        id req _ hnd2 hmem2
      exact alookup_append_some id _ s.completed hsome
  · -- the JIRA-side variant rejects non-pending requests
    intro requests id approved now req h hst
    unfold submitApprovalResponse
    rw [h]
    simp [hst]

/-- C2 (witness): submitting a decision for an id with no pending request
(for example on the empty workflow state, which satisfies the invariant)
fails with the lookup error. -/
theorem approval_terminal_once_witness :
    submitApprovalDecision ⟨[], []⟩ "r1" true 5 =
      Except.error "Request not found or already processed" :=
  ((approval_terminal_once 100 60 ⟨[], []⟩ (by decide)).1 "r1" true 5 rfl).1

/-! ### Lemmas about the violation lifecycle -/

theorem alookup_filter_preserve {α β : Type} [DecidableEq α] {k k0 : α}
    (h : k ≠ k0) :
    ∀ l : List (α × β), alookup k (l.filter (fun p => decide (p.1 ≠ k0))) =
      alookup k l := by
  intro l
  induction l with
  | nil => rfl
  | cons x rest ih =>
    obtain ⟨k', w⟩ := x
    by_cases hk0 : k' = k0
    · subst hk0
      rw [List.filter_cons_of_neg (by simp)]
      rw [ih]
      simp only [alookup]
      rw [if_neg (fun he : k' = k => h (he ▸ rfl))]
    · rw [List.filter_cons_of_pos (by simpa using hk0)]
      by_cases hkk : k' = k
      · simp only [alookup, if_pos hkk]
      · simp only [alookup, if_neg hkk]
        exact ih

theorem unresolvedFor_append (xs ys : List ViolationRecord)
    (key : String × ComponentType) :
    unresolvedFor (xs ++ ys) key = unresolvedFor xs key ++ unresolvedFor ys key := by
  simp [unresolvedFor]

theorem unresolvedFor_singleton_ne (r : ViolationRecord)
    (key : String × ComponentType)
    (h : ¬ ((r.vesselId, r.componentType) = key)) :
    unresolvedFor [r] key = [] := by
  simp only [unresolvedFor]
  rw [List.filter_eq_nil_iff]
  intro a ha
  simp only [List.mem_singleton] at ha
  subst ha
  simp only [decide_eq_true_eq]
  rintro ⟨h1, h2, -⟩
  exact h (Prod.ext h1 h2)

theorem resolveViolation_vids (store : List ViolationRecord) (i : Nat) :
    (resolveViolation store i).map ViolationRecord.vid =
      store.map ViolationRecord.vid := by
  unfold resolveViolation
  rw [List.map_map]
  apply List.map_congr_left
  intro y _
  by_cases h : y.vid = i <;> simp [h]

theorem unresolvedFor_resolve_other (store : List ViolationRecord) (i : Nat)
    (key : String × ComponentType)
    (h : ∀ r ∈ store, r.vid = i →
      ¬ (r.vesselId = key.1 ∧ r.componentType = key.2)) :
    unresolvedFor (resolveViolation store i) key = unresolvedFor store key := by
  induction store with
  | nil => rfl
  | cons y rest ih =>
    have hrest : ∀ r ∈ rest, r.vid = i →
        ¬ (r.vesselId = key.1 ∧ r.componentType = key.2) :=
      fun r hr => h r (List.mem_cons_of_mem _ hr)
    have hstep : resolveViolation (y :: rest) i =
        (if y.vid = i then { y with resolved := true } else y) ::
          resolveViolation rest i := rfl
    rw [hstep]
    by_cases hyi : y.vid = i
    · rw [if_pos hyi]
      have hy := h y (List.mem_cons_self _ _) hyi
      have h1 : unresolvedFor ({ y with resolved := true } ::
          resolveViolation rest i) key = unresolvedFor (resolveViolation rest i) key := by
        simp only [unresolvedFor]
        rw [List.filter_cons_of_neg]
        simp only [decide_eq_true_eq]
        rintro ⟨-, -, hres⟩
        exact absurd hres (by simp)
      have h2 : unresolvedFor (y :: rest) key = unresolvedFor rest key := by
        simp only [unresolvedFor]
        rw [List.filter_cons_of_neg]
        simp only [decide_eq_true_eq]
        rintro ⟨ha, hb, -⟩
        exact hy ⟨ha, hb⟩
      rw [h1, h2]
      exact ih hrest
    · rw [if_neg hyi]
      simp only [unresolvedFor]
      rw [List.filter_cons, List.filter_cons]
      have hih := ih hrest
      simp only [unresolvedFor] at hih
      rw [hih]

theorem unresolvedFor_resolve_self (store : List ViolationRecord) (i : Nat)
    (key : String × ComponentType) (r0 : ViolationRecord)
    (h : unresolvedFor store key = [r0]) (hvid : r0.vid = i) :
    unresolvedFor (resolveViolation store i) key = [] := by
  simp only [unresolvedFor, resolveViolation]
  rw [List.filter_eq_nil_iff]
  intro x hx
  obtain ⟨y, hy, rfl⟩ := List.mem_map.mp hx
  by_cases hyi : y.vid = i
  · rw [if_pos hyi]
    simp only [decide_eq_true_eq]
    rintro ⟨-, -, hres⟩
    exact absurd hres (by simp)
  · rw [if_neg hyi]
    simp only [decide_eq_true_eq]
    intro hpred
    have hymem : y ∈ unresolvedFor store key := by
      simp only [unresolvedFor]
      exact List.mem_filter.mpr ⟨hy, decide_eq_true hpred⟩
    rw [h] at hymem
    simp only [List.mem_singleton] at hymem
    subst hymem
    exact hyi hvid

/-- One lifecycle observation preserves the analyzer invariant. -/
theorem trackViolation_inv (s : AnalyzerState) (v : String) (ct : ComponentType)
    (c : Bool) (hinv : AnalyzerInv s) :
    AnalyzerInv (trackViolationLifecycle s v ct c) := by
  obtain ⟨hlt, hnd, hsome, hnone⟩ := hinv
  simp only [trackViolationLifecycle]
  cases c with
  | false =>
    rw [if_pos (by simp)]
    cases hl : alookup (v, ct) s.cache with
    | some i => exact ⟨hlt, hnd, hsome, hnone⟩
    | none =>
      refine ⟨?_, ?_, ?_, ?_⟩
      · intro r hr
        rcases List.mem_append.mp hr with h | h
        · exact Nat.lt_succ_of_lt (hlt r h)
        · simp only [List.mem_singleton] at h
          subst h
          exact Nat.lt_succ_self _
      · rw [List.map_append]
        apply List.Nodup.append hnd (by simp)
        intro a ha hb
        simp only [List.map_cons, List.map_nil, List.mem_singleton] at hb
        subst hb
        obtain ⟨r, hr, hre⟩ := List.mem_map.mp ha
        have := hlt r hr
        omega
      · intro key i hki
        by_cases hkey : (v, ct) = key
        · subst hkey
          have h' : (if (v, ct) = (v, ct) then some s.nextId
              else alookup (v, ct) s.cache) = some i := hki
          rw [if_pos rfl] at h'
          obtain rfl : s.nextId = i := Option.some_inj.mp h'
          refine ⟨⟨s.nextId, v, ct, false⟩, ?_, rfl⟩
          rw [unresolvedFor_append, hnone (v, ct) hl]
          simp [unresolvedFor]
        · have hki' : alookup key s.cache = some i := by
            have h' : (if (v, ct) = key then some s.nextId
                else alookup key s.cache) = some i := hki
            rw [if_neg hkey] at h'
            exact h'
          obtain ⟨r, hr, hrv⟩ := hsome key i hki'
          refine ⟨r, ?_, hrv⟩
          rw [unresolvedFor_append, hr, unresolvedFor_singleton_ne _ _ hkey]
          rfl
      · intro key hk
        have hkne : ¬ ((v, ct) = key) := by
          intro he
          have h' : (if (v, ct) = key then some s.nextId
              else alookup key s.cache) = none := hk
          rw [if_pos he] at h'
          exact Option.noConfusion h'
        have hk' : alookup key s.cache = none := by
          have h' : (if (v, ct) = key then some s.nextId
              else alookup key s.cache) = none := hk
          rw [if_neg hkne] at h'
          exact h'
        rw [unresolvedFor_append, hnone key hk',
          unresolvedFor_singleton_ne _ _ hkne]
        rfl
  | true =>
    rw [if_neg (by simp)]
    cases hl : alookup (v, ct) s.cache with
    | none => exact ⟨hlt, hnd, hsome, hnone⟩
    | some i =>
      obtain ⟨r0, hr0, hr0v⟩ := hsome (v, ct) i hl
      have hr0mem : r0 ∈ s.store := by
        have : r0 ∈ unresolvedFor s.store (v, ct) := by
          rw [hr0]; exact List.mem_singleton.mpr rfl
        exact List.mem_of_mem_filter this
      have hr0pred : r0.vesselId = v ∧ r0.componentType = ct ∧ r0.resolved = false := by
        have : r0 ∈ unresolvedFor s.store (v, ct) := by
          rw [hr0]; exact List.mem_singleton.mpr rfl
        have := List.of_mem_filter this
        simpa using this
      have hother : ∀ key : String × ComponentType, ¬ ((v, ct) = key) →
          ∀ r ∈ s.store, r.vid = i →
            ¬ (r.vesselId = key.1 ∧ r.componentType = key.2) := by
        intro key hkne r hrm hrvid
        have heq : r = r0 := nodup_map_inj hnd hrm hr0mem (by rw [hrvid, hr0v])
        subst heq
        rintro ⟨ha, hb⟩
        exact hkne (Prod.ext (hr0pred.1 ▸ ha) (hr0pred.2.1 ▸ hb))
      refine ⟨?_, ?_, ?_, ?_⟩
      · intro r hr
        obtain ⟨y, hy, rfl⟩ := List.mem_map.mp hr
        have hv : ((if y.vid = i then { y with resolved := true } else y) :
            ViolationRecord).vid = y.vid := by
          by_cases h : y.vid = i <;> simp [h]
        rw [hv]
        exact hlt y hy
      · rw [resolveViolation_vids]
        exact hnd
      · intro key j hkj
        have hkne : key ≠ (v, ct) := by
          intro he
          subst he
          rw [alookup_filter_ne] at hkj
          exact Option.noConfusion hkj
        rw [alookup_filter_preserve hkne] at hkj
        obtain ⟨r, hr, hrv⟩ := hsome key j hkj
        refine ⟨r, ?_, hrv⟩
        rw [unresolvedFor_resolve_other s.store i key
          (hother key (fun he => hkne he.symm))]
        exact hr
      · intro key hk
        by_cases hkey : key = (v, ct)
        · subst hkey
          exact unresolvedFor_resolve_self s.store i (v, ct) r0 hr0 hr0v
        · rw [alookup_filter_preserve hkey] at hk
          rw [unresolvedFor_resolve_other s.store i key
            (hother key (fun he => hkey he.symm))]
          exact hnone key hk

/-- C8 (amended): within one analyzer instance started over an empty store,
every sequence of compliance observations leaves at most one unresolved
`ViolationRecord` per (vessel_id, role) pair — a new record is opened only on a
non-compliant observation with no cached open record, and a compliant
observation closes the cached record.  (The invariant does NOT survive
restarts: the cache is initialized empty instead of being rebuilt from the
store's open records.) -/
theorem violation_invariant_single_instance :
    ∀ (obs : List (String × ComponentType × Bool)) (key : String × ComponentType),
      (unresolvedFor (runObservations (initAnalyzer [] 0) obs).store key).length ≤ 1 := by
  have hrun : ∀ (obs : List (String × ComponentType × Bool)) (s : AnalyzerState),
      AnalyzerInv s → AnalyzerInv (runObservations s obs) := by
    intro obs
    induction obs with
    | nil => intro s h; exact h
    | cons x rest ih =>
      intro s h
      obtain ⟨v, ct, compliant⟩ := x
      exact ih _ (trackViolation_inv s v ct compliant h)
  intro obs key
  have hinit : AnalyzerInv (initAnalyzer [] 0) := by
    refine ⟨by simp [initAnalyzer], by simp [initAnalyzer], ?_, ?_⟩
    · intro k i h
      exact Option.noConfusion h
    · intro k _
      rfl
  obtain ⟨-, -, hsome, hnone⟩ := hrun obs (initAnalyzer [] 0) hinit
  cases hl : alookup key (runObservations (initAnalyzer [] 0) obs).cache with
  | none =>
    rw [hnone key hl]
    simp
  | some i =>
    obtain ⟨r, hr, -⟩ := hsome key i hl
    rw [hr]
    simp

end InfraAgent
